import Mathlib

/-!
Shallow embedding of the SynSplit balance/debt computation engine
(`src/lib/splitCalculator.ts`), together with proofs of the specified
properties.  Monetary values are modelled as exact rationals; JavaScript
`Math.round` (round half toward positive infinity) is modelled by `jround`.
JavaScript plain-object records (`Record<string, number>`) that the code
iterates over are modelled as insertion-ordered association lists
(`List (String × ℚ)`); the `paid`/`used` records of `calculateNetBalances`,
which the code only ever reads back at single keys (always defaulting
missing keys to `0` via `|| 0`), are modelled as total functions
`String → ℚ` that start at the constant-zero function — the member
initialisation loop, which writes `0` over this default, is therefore a
no-op in the model.
-/

namespace SynSplit

/-- JavaScript `Math.round`: rounds half toward positive infinity. -/
def jround (q : ℚ) : ℤ := ⌊q + 1/2⌋

/-- `Math.round(q * 100) / 100`: round to 2 decimal places, half up. -/
def rnd2 (q : ℚ) : ℚ := (jround (q * 100) : ℚ) / 100

/-- A rational is representable with at most 2 decimal places. -/
def is2dp (q : ℚ) : Prop := ∃ k : ℤ, q = (k : ℚ) / 100

/-- JS object write `m[k] = v`: overwrite in place if the key exists,
otherwise append (string keys keep insertion order). -/
def setKey (m : List (String × ℚ)) (k : String) (v : ℚ) : List (String × ℚ) :=
  if m.any (fun p => p.1 = k) then
    m.map (fun p => if p.1 = k then (k, v) else p)
  else
    m ++ [(k, v)]

/-- JS object read `m[k] || 0`. -/
def getD (m : List (String × ℚ)) (k : String) : ℚ :=
  match m.find? (fun p => p.1 = k) with
  | some p => p.2
  | none => 0

/-- Pointwise update of a total map: `f[k] = (f[k] || 0) + a`. -/
def updAdd (f : String → ℚ) (k : String) (a : ℚ) : String → ℚ :=
  fun x => if x = k then f k + a else f x

/-- The TypeScript union `'equal' | 'unequal' | 'percentage' | 'share'`. -/
inductive SplitType where
  | equal
  | unequal
  | percentage
  | share
deriving Repr, DecidableEq

/-- `Member` (fields not read by the calculator carry defaults). -/
structure Member where
  uid : String
  name : String
  email : String := ""
  photoURL : Option String := none
deriving Repr, DecidableEq

/-- `Expense` (metadata fields not read by the calculator carry defaults). -/
structure Expense where
  id : String := ""
  groupId : String := ""
  amount : ℚ
  description : String := ""
  category : String := "others"
  mode : String := "direct"
  paidBy : String
  usedBy : List String
  splitType : SplitType
  splitDetails : Option (List (String × ℚ)) := none
  createdAt : ℤ := 0
  createdBy : String := ""
deriving Repr, DecidableEq

/-- `PoolContribution`. -/
structure PoolContribution where
  id : String := ""
  groupId : String := ""
  userId : String
  amount : ℚ
  month : String := ""
  createdAt : ℤ := 0
deriving Repr, DecidableEq

/-- `Settlement`. -/
structure Settlement where
  id : String := ""
  groupId : String := ""
  fromUser : String
  toUser : String
  amount : ℚ
  createdAt : ℤ := 0
deriving Repr, DecidableEq

/-- `Debt` (`from` and `to` are Lean keywords, hence the guillemets). -/
structure Debt where
  «from» : String
  «to» : String
  amount : ℚ
deriving Repr, DecidableEq

/-- `BalanceSummary`. -/
structure BalanceSummary where
  uid : String
  name : String
  photoURL : Option String := none
  totalPaid : ℚ
  totalUsed : ℚ
  netBalance : ℚ
deriving Repr, DecidableEq

/-- `calculateEqualSplit(amount, members)`. -/
def calculateEqualSplit (amount : ℚ) (members : List String) : List (String × ℚ) :=
  match members with
  | [] => []
  | m0 :: _ =>
    let share := rnd2 (amount / members.length)
    let result := members.foldl (fun r uid => setKey r uid share) []
    let diff := amount - share * members.length
    if diff ≠ 0 then
      setKey result m0 (rnd2 (getD result m0 + diff))
    else
      result

/-- `calculatePercentageSplit(amount, percentages)`. -/
def calculatePercentageSplit (amount : ℚ) (percentages : List (String × ℚ)) :
    List (String × ℚ) :=
  percentages.foldl (fun r p => setKey r p.1 (rnd2 (amount * p.2 / 100))) []

/-- `calculateShareSplit(amount, shares)`. -/
def calculateShareSplit (amount : ℚ) (shares : List (String × ℚ)) :
    List (String × ℚ) :=
  let totalShares := (shares.map (fun p => p.2)).sum
  if totalShares = 0 then []
  else shares.foldl (fun r p => setKey r p.1 (rnd2 (amount * p.2 / totalShares))) []

/-- `calculateSplit(amount, splitType, members, splitDetails?)`.  The
TypeScript `default` switch branch is unreachable because `SplitType` has
exactly the four listed values. -/
def calculateSplit (amount : ℚ) (splitType : SplitType) (members : List String)
    (splitDetails : Option (List (String × ℚ))) : List (String × ℚ) :=
  match splitType with
  | .equal => calculateEqualSplit amount members
  | .unequal => splitDetails.getD []
  | .percentage => calculatePercentageSplit amount (splitDetails.getD [])
  | .share => calculateShareSplit amount (splitDetails.getD [])

/-- The `paid`/`used` accumulator maps of `calculateNetBalances` after the
expense loop (a single pass updating both maps). -/
def accExpenses (expenses : List Expense) (pu : (String → ℚ) × (String → ℚ)) :
    (String → ℚ) × (String → ℚ) :=
  expenses.foldl
    (fun pu e =>
      (updAdd pu.1 e.paidBy e.amount,
       (calculateSplit e.amount e.splitType e.usedBy e.splitDetails).foldl
         (fun u kv => updAdd u kv.1 kv.2) pu.2))
    pu

/-- The `paid` map after the pool-contribution loop. -/
def accContributions (contributions : List PoolContribution) (p : String → ℚ) :
    String → ℚ :=
  contributions.foldl (fun p c => updAdd p c.userId c.amount) p

/-- The `paid`/`used` maps after the settlement loop. -/
def accSettlements (settlements : List Settlement)
    (pu : (String → ℚ) × (String → ℚ)) : (String → ℚ) × (String → ℚ) :=
  settlements.foldl
    (fun pu s => (updAdd pu.1 s.fromUser s.amount, updAdd pu.2 s.toUser s.amount))
    pu

/-- The final `paid` map of `calculateNetBalances`. -/
def paidFinal (expenses : List Expense) (contributions : List PoolContribution)
    (settlements : List Settlement) : String → ℚ :=
  (accSettlements settlements
    (accContributions contributions (accExpenses expenses (fun _ => 0, fun _ => 0)).1,
     (accExpenses expenses (fun _ => 0, fun _ => 0)).2)).1

/-- The final `used` map of `calculateNetBalances`. -/
def usedFinal (expenses : List Expense) (contributions : List PoolContribution)
    (settlements : List Settlement) : String → ℚ :=
  (accSettlements settlements
    (accContributions contributions (accExpenses expenses (fun _ => 0, fun _ => 0)).1,
     (accExpenses expenses (fun _ => 0, fun _ => 0)).2)).2

/-- `calculateNetBalances(expenses, contributions, settlements, members)`. -/
def calculateNetBalances (expenses : List Expense)
    (contributions : List PoolContribution) (settlements : List Settlement)
    (members : List Member) : List BalanceSummary :=
  let paid := paidFinal expenses contributions settlements
  let used := usedFinal expenses contributions settlements
  members.map (fun m =>
    { uid := m.uid
      name := m.name
      photoURL := m.photoURL
      totalPaid := rnd2 (paid m.uid)
      totalUsed := rnd2 (used m.uid)
      netBalance := rnd2 (paid m.uid - used m.uid) })

/-- The two-pointer loop of `calculateDebts`, on the (already filtered and
sorted) debtor and creditor working lists.  At each step
`a = min(debtors[i].amount, creditors[j].amount)`; a transfer is recorded
only when `a > 0.01`; a pointer advances when its remaining amount drops
below `0.01`.  When `d - a ≥ 0.01` necessarily `a = c`, so the creditor
pointer advances, matching the source's `if (creditors[j].amount < 0.01) j++`. -/
def settle : List (String × ℚ) → List (String × ℚ) → List Debt
  | [], _ => []
  | _ :: _, [] => []
  | (ud, d) :: ds, (uc, c) :: cs =>
    let a := min d c
    let push := if 1/100 < a then [Debt.mk ud uc (rnd2 a)] else []
    if d - a < 1/100 then
      if c - a < 1/100 then push ++ settle ds cs
      else push ++ settle ds ((uc, c - a) :: cs)
    else push ++ settle ((ud, d - a) :: ds) cs
termination_by D C => D.length + C.length

/-- `calculateDebts(balances)`: greedy matching of largest debtor against
largest creditor.  The JS comparator `(a, b) => b.amount - a.amount` is a
stable descending sort by amount. -/
def calculateDebts (balances : List BalanceSummary) : List Debt :=
  let debtors :=
    ((balances.filter (fun b => b.netBalance < -(1/100))).map
      (fun b => (b.uid, |b.netBalance|))).mergeSort (fun x y => y.2 ≤ x.2)
  let creditors :=
    ((balances.filter (fun b => 1/100 < b.netBalance)).map
      (fun b => (b.uid, b.netBalance))).mergeSort (fun x y => y.2 ≤ x.2)
  settle debtors creditors

/-- Total transferred away from `u` by the debts in `L`. -/
def fromTotal (L : List Debt) (u : String) : ℚ :=
  ((L.filter (fun d => d.«from» = u)).map Debt.amount).sum

/-- Total transferred to `u` by the debts in `L`. -/
def toTotal (L : List Debt) (u : String) : ℚ :=
  ((L.filter (fun d => d.«to» = u)).map Debt.amount).sum

/-- Follows the spec's words, for comparison with the code: rounding half
away from zero (so `-0.5` rounds to `-1`), unlike JS `Math.round`. -/
def jroundAway (q : ℚ) : ℤ := if 0 ≤ q then ⌊q + 1/2⌋ else -⌊-q + 1/2⌋

/-- Follows the spec's words: round to 2 decimal places, half away from
zero. -/
def rnd2Away (q : ℚ) : ℚ := (jroundAway (q * 100) : ℚ) / 100

/-- Follows the spec's words: `calculateNetBalances` with its three output
roundings replaced by round-half-away-from-zero, for comparison with the
code's `Math.round` semantics. -/
def calculateNetBalancesAway (expenses : List Expense)
    (contributions : List PoolContribution) (settlements : List Settlement)
    (members : List Member) : List BalanceSummary :=
  let paid := paidFinal expenses contributions settlements
  let used := usedFinal expenses contributions settlements
  members.map (fun m =>
    { uid := m.uid
      name := m.name
      photoURL := m.photoURL
      totalPaid := rnd2Away (paid m.uid)
      totalUsed := rnd2Away (used m.uid)
      netBalance := rnd2Away (paid m.uid - used m.uid) })

/-- Division that fails (like a JS `NaN`/`Infinity` outcome would) instead
of silently totalising division by zero. -/
def divChecked (a b : ℚ) : Option ℚ :=
  if b = 0 then none else some (a / b)

/-- `calculateEqualSplit` with its division by `members.length` checked. -/
def calculateEqualSplitChecked (amount : ℚ) (members : List String) :
    Option (List (String × ℚ)) :=
  match members with
  | [] => some []
  | m0 :: _ =>
    (divChecked amount members.length).map (fun q =>
      let share := rnd2 q
      let result := members.foldl (fun r uid => setKey r uid share) []
      let diff := amount - share * members.length
      if diff ≠ 0 then
        setKey result m0 (rnd2 (getD result m0 + diff))
      else
        result)

/-- `calculatePercentageSplit` with its division by `100` checked. -/
def calculatePercentageSplitChecked (amount : ℚ)
    (percentages : List (String × ℚ)) : Option (List (String × ℚ)) :=
  percentages.foldl
    (fun acc p => acc.bind (fun r =>
      (divChecked (amount * p.2) 100).map (fun q => setKey r p.1 (rnd2 q))))
    (some [])

/-- `calculateShareSplit` with its division by `totalShares` checked. -/
def calculateShareSplitChecked (amount : ℚ) (shares : List (String × ℚ)) :
    Option (List (String × ℚ)) :=
  let totalShares := (shares.map (fun p => p.2)).sum
  if totalShares = 0 then some []
  else
    shares.foldl
      (fun acc p => acc.bind (fun r =>
        (divChecked (amount * p.2) totalShares).map
          (fun q => setKey r p.1 (rnd2 q))))
      (some [])

/-- `calculateSplit` with every division-by-a-non-constant checked. -/
def calculateSplitChecked (amount : ℚ) (splitType : SplitType)
    (members : List String) (splitDetails : Option (List (String × ℚ))) :
    Option (List (String × ℚ)) :=
  match splitType with
  | .equal => calculateEqualSplitChecked amount members
  | .unequal => some (splitDetails.getD [])
  | .percentage => calculatePercentageSplitChecked amount (splitDetails.getD [])
  | .share => calculateShareSplitChecked amount (splitDetails.getD [])

/-- `calculateNetBalances` built on the checked split calculator: fails if
any expense's split would divide by zero.  `calculateDebts` and the rest of
`calculateNetBalances` contain no division at all. -/
def calculateNetBalancesChecked (expenses : List Expense)
    (contributions : List PoolContribution) (settlements : List Settlement)
    (members : List Member) : Option (List BalanceSummary) :=
  (expenses.foldlM
    (fun pu e =>
      (calculateSplitChecked e.amount e.splitType e.usedBy e.splitDetails).map
        (fun split =>
          (updAdd pu.1 e.paidBy e.amount,
           split.foldl (fun u kv => updAdd u kv.1 kv.2) pu.2)))
    ((fun _ => (0 : ℚ)), (fun _ => (0 : ℚ)))).map
    (fun pu =>
      let pu1 := accSettlements settlements (accContributions contributions pu.1, pu.2)
      members.map (fun m =>
        { uid := m.uid
          name := m.name
          photoURL := m.photoURL
          totalPaid := rnd2 (pu1.1 m.uid)
          totalUsed := rnd2 (pu1.2 m.uid)
          netBalance := rnd2 (pu1.1 m.uid - pu1.2 m.uid) }))

/-- Sum of the working amounts of a debtor/creditor list. -/
def sumAmt (L : List (String × ℚ)) : ℚ := (L.map (fun p => p.2)).sum

/-- Shape of the working lists inside `calculateDebts`' loop when every
balance is a whole number of cents: all amounts are 2-decimal, the head is
at least one cent, untouched entries are above the filter threshold. -/
def goodSide (L : List (String × ℚ)) : Prop :=
  (∀ p ∈ L, is2dp p.2) ∧ (∀ p ∈ L, 1/100 ≤ p.2) ∧ (∀ p ∈ L.tail, 2/100 ≤ p.2)

/-- Invariant tying the two working lists of the settlement loop together. -/
def settleInv (D C : List (String × ℚ)) : Prop :=
  goodSide D ∧ goodSide C ∧ sumAmt D = sumAmt C ∧
    (D.map Prod.fst ++ C.map Prod.fst).Nodup

end SynSplit

namespace SynSplit

/-! ### Basic facts about 2-decimal rounding -/

theorem is2dp_rnd2 (q : ℚ) : is2dp (rnd2 q) := ⟨jround (q * 100), rfl⟩

theorem is2dp_zero : is2dp 0 := ⟨0, by norm_num⟩

theorem is2dp.add {a b : ℚ} (ha : is2dp a) (hb : is2dp b) : is2dp (a + b) := by
  obtain ⟨j, rfl⟩ := ha
  obtain ⟨k, rfl⟩ := hb
  exact ⟨j + k, by push_cast; ring⟩

theorem is2dp.neg {a : ℚ} (ha : is2dp a) : is2dp (-a) := by
  obtain ⟨j, rfl⟩ := ha
  exact ⟨-j, by push_cast; ring⟩

theorem is2dp.sub {a b : ℚ} (ha : is2dp a) (hb : is2dp b) : is2dp (a - b) := by
  rw [sub_eq_add_neg]
  exact ha.add hb.neg

theorem is2dp.min {a b : ℚ} (ha : is2dp a) (hb : is2dp b) : is2dp (min a b) := by
  rcases min_choice a b with h | h <;> rw [h] <;> assumption

theorem is2dp.abs {a : ℚ} (ha : is2dp a) : is2dp |a| := by
  rcases abs_choice a with h | h <;> rw [h]
  · exact ha
  · exact ha.neg

theorem rnd2_eq_self {q : ℚ} (h : is2dp q) : rnd2 q = q := by
  obtain ⟨k, rfl⟩ := h
  unfold rnd2 jround
  have h1 : (k : ℚ) / 100 * 100 = (k : ℚ) := by
    field_simp
  rw [h1]
  have h2 : ⌊(k : ℚ) + 1/2⌋ = k := by
    rw [add_comm, Int.floor_add_int]
    norm_num
  rw [h2]

theorem rnd2_le (q : ℚ) : rnd2 q ≤ q + 1/200 := by
  unfold rnd2 jround
  have h := Int.floor_le (q * 100 + 1/2)
  have : (⌊q * 100 + 1/2⌋ : ℚ) / 100 ≤ (q * 100 + 1/2) / 100 := by
    apply div_le_div_of_nonneg_right h
    norm_num
  calc (⌊q * 100 + 1/2⌋ : ℚ) / 100 ≤ (q * 100 + 1/2) / 100 := this
    _ = q + 1/200 := by ring

theorem lt_rnd2 (q : ℚ) : q - 1/200 < rnd2 q := by
  unfold rnd2 jround
  have h := Int.sub_one_lt_floor (q * 100 + 1/2)
  have h2 : (q * 100 + 1/2 - 1) / 100 < (⌊q * 100 + 1/2⌋ : ℚ) / 100 := by
    apply div_lt_div_of_pos_right h
    norm_num
  calc q - 1/200 = (q * 100 + 1/2 - 1) / 100 := by ring
    _ < (⌊q * 100 + 1/2⌋ : ℚ) / 100 := h2

theorem is2dp_eq_zero_of_lt_cent {q : ℚ} (h : is2dp q) (h0 : 0 ≤ q)
    (h1 : q < 1/100) : q = 0 := by
  obtain ⟨k, rfl⟩ := h
  have hk0 : (0 : ℤ) ≤ k := by
    by_contra hc
    push_neg at hc
    have : (k : ℚ) / 100 < 0 := by
      apply div_neg_of_neg_of_pos _ (by norm_num)
      exact_mod_cast hc
    linarith
  have hk1 : k < 1 := by
    by_contra hc
    push_neg at hc
    have : (1 : ℚ) ≤ (k : ℚ) := by exact_mod_cast hc
    have : (1 : ℚ) / 100 ≤ (k : ℚ) / 100 := by linarith
    linarith
  have : k = 0 := by omega
  rw [this]
  norm_num

theorem is2dp_cent_cases {q : ℚ} (h : is2dp q) (h1 : 1/100 ≤ q) :
    q = 1/100 ∨ 2/100 ≤ q := by
  obtain ⟨k, rfl⟩ := h
  have hk1 : (1 : ℤ) ≤ k := by
    have h' : (1 : ℚ) ≤ (k : ℚ) := by linarith
    exact_mod_cast h'
  rcases eq_or_lt_of_le hk1 with h2 | h2
  · left
    rw [← h2]
    norm_num
  · right
    have h3 : (2 : ℤ) ≤ k := by omega
    have h4 : (2 : ℚ) ≤ (k : ℚ) := by exact_mod_cast h3
    linarith

/-! ### Association-list record lemmas -/

theorem mem_fst_setKey_iff (m : List (String × ℚ)) (k : String) (v : ℚ)
    (x : String) :
    x ∈ (setKey m k v).map Prod.fst ↔ x ∈ m.map Prod.fst ∨ x = k := by
  unfold setKey
  split
  · next h =>
    rw [List.any_eq_true] at h
    obtain ⟨p, hp, hpk⟩ := h
    simp only [decide_eq_true_eq] at hpk
    rw [List.map_map]
    have hmap : m.map (Prod.fst ∘ fun p => if p.1 = k then (k, v) else p) =
        m.map Prod.fst := by
      apply List.map_congr_left
      intro q _
      by_cases hq : q.1 = k
      · simp [hq]
      · simp [hq]
    rw [hmap]
    constructor
    · intro hx
      exact Or.inl hx
    · rintro (hx | rfl)
      · exact hx
      · rw [← hpk]
        exact List.mem_map_of_mem Prod.fst hp
  · simp

theorem mem_fst_foldl_setKey {β : Type} (l : List β) (kf : β → String)
    (vf : β → ℚ) :
    ∀ (r0 : List (String × ℚ)) (x : String),
      (x ∈ (l.foldl (fun r b => setKey r (kf b) (vf b)) r0).map Prod.fst ↔
        x ∈ r0.map Prod.fst ∨ x ∈ l.map kf) := by
  induction l with
  | nil => simp
  | cons b l ih =>
    intro r0 x
    rw [List.foldl_cons, ih, mem_fst_setKey_iff]
    simp only [List.map_cons, List.mem_cons]
    tauto

theorem foldl_setKey_const (ms : List String) (share : ℚ) :
    ∀ (r0 : List (String × ℚ)), ms.Nodup → (∀ u ∈ ms, u ∉ r0.map Prod.fst) →
    ms.foldl (fun r uid => setKey r uid share) r0 =
      r0 ++ ms.map (fun u => (u, share)) := by
  induction ms with
  | nil => simp
  | cons m ms ih =>
    intro r0 hnd hdis
    rw [List.foldl_cons]
    have hm : ¬ (r0.any (fun p => p.1 = m)) = true := by
      rw [List.any_eq_true]
      rintro ⟨p, hp, hpk⟩
      simp only [decide_eq_true_eq] at hpk
      apply hdis m (List.mem_cons_self m ms)
      rw [← hpk]
      exact List.mem_map_of_mem Prod.fst hp
    have hset : setKey r0 m share = r0 ++ [(m, share)] := by
      unfold setKey
      rw [if_neg hm]
    rw [hset, ih (r0 ++ [(m, share)]) hnd.of_cons]
    · rw [List.append_assoc]
      rfl
    · intro u hu
      rw [List.map_append, List.mem_append]
      rintro (h1 | h2)
      · exact hdis u (List.mem_cons_of_mem m hu) h1
      · simp only [List.map_cons, List.map_nil, List.mem_singleton] at h2
        rw [List.nodup_cons] at hnd
        rw [h2] at hu
        exact hnd.1 hu

theorem rnd2_rnd2 (q : ℚ) : rnd2 (rnd2 q) = rnd2 q :=
  rnd2_eq_self (is2dp_rnd2 q)

/-- Characterisation of `calculateEqualSplit` on a duplicate-free member
list: every member is assigned the rounded share, except the first, who
additionally absorbs the rounding residual. -/
theorem calculateEqualSplit_eq (amount : ℚ) (m0 : String) (rest : List String)
    (hnd : (m0 :: rest).Nodup) :
    calculateEqualSplit amount (m0 :: rest) =
      (m0, rnd2 (rnd2 (amount / (m0 :: rest).length) +
        (amount - rnd2 (amount / (m0 :: rest).length) * (m0 :: rest).length)))
        :: rest.map (fun u => (u, rnd2 (amount / (m0 :: rest).length))) := by
  unfold calculateEqualSplit
  dsimp only
  have hfold : (m0 :: rest).foldl
      (fun r uid => setKey r uid (rnd2 (amount / (m0 :: rest).length))) [] =
      (m0, rnd2 (amount / (m0 :: rest).length)) ::
        rest.map (fun u => (u, rnd2 (amount / (m0 :: rest).length))) := by
    rw [foldl_setKey_const (m0 :: rest) _ [] hnd (by simp)]
    rfl
  rw [hfold]
  set share := rnd2 (amount / (m0 :: rest).length) with hshare
  set diff := amount - share * (m0 :: rest).length with hdiff
  by_cases hd : diff ≠ 0
  · rw [if_pos hd]
    have hany : (((m0, share) :: rest.map (fun u => (u, share))).any
        (fun p => p.1 = m0)) = true := by
      rw [List.any_eq_true]
      exact ⟨(m0, share), List.mem_cons_self _ _, by simp⟩
    have hget : getD ((m0, share) :: rest.map (fun u => (u, share))) m0 = share := by
      unfold getD
      rw [List.find?_cons_of_pos _ (by simp)]
    unfold setKey
    rw [if_pos hany, hget]
    simp only [List.map_cons, if_true]
    congr 1
    rw [List.map_map]
    apply List.map_congr_left
    intro u hu
    have hne : u ≠ m0 := by
      rw [List.nodup_cons] at hnd
      intro hc
      rw [hc] at hu
      exact hnd.1 hu
    simp [Function.comp, hne]
  · rw [if_neg hd]
    push_neg at hd
    rw [hd, add_zero, rnd2_rnd2]

theorem is2dp.mul_natCast {a : ℚ} (ha : is2dp a) (n : ℕ) : is2dp (a * n) := by
  obtain ⟨k, rfl⟩ := ha
  exact ⟨k * n, by push_cast; ring⟩

theorem sum_map_const {β : Type} (l : List β) (c : ℚ) :
    (l.map (fun _ => c)).sum = l.length * c := by
  induction l with
  | nil => simp
  | cons b l ih =>
    simp only [List.map_cons, List.sum_cons, List.length_cons, ih]
    push_cast
    ring

/-- On a non-empty duplicate-free member list and a whole-cent amount, the
equal split's values sum exactly to the amount. -/
theorem calculateEqualSplit_sum (amount : ℚ) (m0 : String) (rest : List String)
    (hnd : (m0 :: rest).Nodup) (h2 : is2dp amount) :
    ((calculateEqualSplit amount (m0 :: rest)).map (fun p => p.2)).sum = amount := by
  rw [calculateEqualSplit_eq amount m0 rest hnd]
  set share := rnd2 (amount / ((m0 :: rest).length : ℚ)) with hshare
  have hsh2 : is2dp share := is2dp_rnd2 _
  have hdiff2 : is2dp (share + (amount - share * ((m0 :: rest).length : ℚ))) := by
    exact hsh2.add (h2.sub (hsh2.mul_natCast _))
  rw [List.map_cons, List.sum_cons, rnd2_eq_self hdiff2, List.map_map]
  have hconst : rest.map ((fun p => p.2) ∘ (fun u => (u, share))) =
      rest.map (fun _ => share) := rfl
  rw [hconst, sum_map_const]
  simp only [List.length_cons]
  push_cast
  ring

theorem getD_cons_self (m0 : String) (v : ℚ) (l : List (String × ℚ)) :
    getD ((m0, v) :: l) m0 = v := by
  unfold getD
  rw [List.find?_cons_of_pos _ (by simp)]

theorem getD_map_pair_of_mem {l : List String} {u : String} (hu : u ∈ l) (c : ℚ) :
    getD (l.map (fun x => (x, c))) u = c := by
  induction l with
  | nil => cases hu
  | cons b l ih =>
    rcases List.mem_cons.mp hu with rfl | hu'
    · exact getD_cons_self u c _
    · by_cases hb : u = b
      · subst hb
        exact getD_cons_self u c _
      · unfold getD
        rw [List.map_cons, List.find?_cons_of_neg _ (by simp [Ne.symm, hb])]
        exact ih hu'

/-- C3 (amended: the participant list must be duplicate-free — a JS object
keyed by uid collapses duplicate uids).  For a whole-cent amount and a
non-empty duplicate-free participant list, the equal split sums exactly to
the amount, every participant other than the first owes the rounded
per-head share, and the first participant absorbs the entire rounding
residual. -/
theorem equalSplit_exact (amount : ℚ) (k : ℤ) (hk : amount = (k : ℚ) / 100)
    (m0 : String) (rest : List String) (hnd : (m0 :: rest).Nodup) :
    ((calculateSplit amount .equal (m0 :: rest) none).map (fun p => p.2)).sum
        = amount
    ∧ getD (calculateSplit amount .equal (m0 :: rest) none) m0 =
        rnd2 (amount / ((m0 :: rest).length : ℚ)) +
          (amount - rnd2 (amount / ((m0 :: rest).length : ℚ)) * ((m0 :: rest).length : ℚ))
    ∧ ∀ u ∈ rest, getD (calculateSplit amount .equal (m0 :: rest) none) u =
        rnd2 (amount / ((m0 :: rest).length : ℚ)) := by
  have h2 : is2dp amount := ⟨k, hk⟩
  refine ⟨calculateEqualSplit_sum amount m0 rest hnd h2, ?_, ?_⟩
  · show getD (calculateEqualSplit amount (m0 :: rest)) m0 = _
    rw [calculateEqualSplit_eq amount m0 rest hnd, getD_cons_self]
    set share := rnd2 (amount / ((m0 :: rest).length : ℚ))
    have hdiff2 : is2dp (share + (amount - share * ((m0 :: rest).length : ℚ))) :=
      (is2dp_rnd2 _).add (h2.sub ((is2dp_rnd2 _).mul_natCast _))
    rw [rnd2_eq_self hdiff2]
  · intro u hu
    show getD (calculateEqualSplit amount (m0 :: rest)) u = _
    rw [calculateEqualSplit_eq amount m0 rest hnd]
    have hne : u ≠ m0 := by
      rw [List.nodup_cons] at hnd
      intro hc
      rw [hc] at hu
      exact hnd.1 hu
    unfold getD
    rw [List.find?_cons_of_neg _ (by simp [Ne.symm hne])]
    have := getD_map_pair_of_mem hu (rnd2 (amount / ((m0 :: rest).length : ℚ)))
    unfold getD at this
    exact this

/-- C3 counterexample: on a participant list with a duplicated uid the
returned values do not sum to the amount (duplicate keys collapse in the
JS record, so half the money vanishes). -/
theorem equalSplit_dup_not_exact :
    ¬ ((calculateSplit 1 .equal ["a", "a"] none).map (fun p => p.2)).sum = 1 := by
  simp +decide [calculateSplit, calculateEqualSplit, setKey, getD, rnd2, jround]
  norm_num

/-- Witness for `equalSplit_exact` at amount 100 over three participants:
shares are 33.34, 33.33, 33.33. -/
theorem equalSplit_exact_witness :
    (100 : ℚ) = ((10000 : ℤ) : ℚ) / 100 ∧ (["a", "b", "c"] : List String).Nodup ∧
    (((calculateSplit 100 .equal ("a" :: ["b", "c"]) none).map (fun p => p.2)).sum
        = 100
    ∧ getD (calculateSplit 100 .equal ("a" :: ["b", "c"]) none) "a" =
        rnd2 (100 / (("a" :: ["b", "c"]).length : ℚ)) +
          (100 - rnd2 (100 / (("a" :: ["b", "c"]).length : ℚ)) * (("a" :: ["b", "c"]).length : ℚ))
    ∧ ∀ u ∈ ["b", "c"], getD (calculateSplit 100 .equal ("a" :: ["b", "c"]) none) u =
        rnd2 (100 / (("a" :: ["b", "c"]).length : ℚ))) :=
  ⟨by norm_num, by simp,
    equalSplit_exact 100 10000 (by norm_num) "a" ["b", "c"] (by simp)⟩

/-- C8 (confirmed): a share split whose share values sum to zero (in
particular an empty `splitDetails`) yields the empty mapping instead of
dividing by zero. -/
theorem shareSplit_zero_guard (amount : ℚ) (ms : List String)
    (d : List (String × ℚ)) (h : (d.map (fun p => p.2)).sum = 0) :
    calculateSplit amount .share ms (some d) = [] := by
  simp [calculateSplit, calculateShareSplit, h]

/-- Witness for `shareSplit_zero_guard`: shares `{a: 5, b: -5}` sum to zero
and produce the empty mapping. -/
theorem shareSplit_zero_guard_witness :
    (([("a", (5 : ℚ)), ("b", -5)].map (fun p => p.2)).sum = 0) ∧
    calculateSplit 10 .share ["a", "b"] (some [("a", 5), ("b", -5)]) = [] :=
  ⟨by norm_num, shareSplit_zero_guard 10 ["a", "b"] [("a", 5), ("b", -5)] (by norm_num)⟩

/-- C9 (amended: for `share`, the key-set equality holds only when the
share values sum to a nonzero total; a zero total yields the empty
mapping).  For `unequal`, `percentage` and `share`, the result is
independent of the participants argument and its key set equals the key
set of `splitDetails`. -/
theorem split_keys_from_details (amount : ℚ) (ms ms' : List String)
    (d : Option (List (String × ℚ))) :
    (calculateSplit amount .unequal ms d = calculateSplit amount .unequal ms' d
      ∧ ∀ x, x ∈ (calculateSplit amount .unequal ms d).map Prod.fst ↔
          x ∈ (d.getD []).map Prod.fst)
    ∧ (calculateSplit amount .percentage ms d = calculateSplit amount .percentage ms' d
      ∧ ∀ x, x ∈ (calculateSplit amount .percentage ms d).map Prod.fst ↔
          x ∈ (d.getD []).map Prod.fst)
    ∧ (calculateSplit amount .share ms d = calculateSplit amount .share ms' d
      ∧ (((d.getD []).map (fun p => p.2)).sum ≠ 0 →
          ∀ x, x ∈ (calculateSplit amount .share ms d).map Prod.fst ↔
            x ∈ (d.getD []).map Prod.fst)
      ∧ (((d.getD []).map (fun p => p.2)).sum = 0 →
          calculateSplit amount .share ms d = [])) := by
  refine ⟨⟨rfl, fun x => Iff.rfl⟩, ⟨rfl, ?_⟩, ⟨rfl, ?_, ?_⟩⟩
  · intro x
    show x ∈ (calculatePercentageSplit amount (d.getD [])).map Prod.fst ↔ _
    unfold calculatePercentageSplit
    rw [mem_fst_foldl_setKey (d.getD []) Prod.fst
      (fun p => rnd2 (amount * p.2 / 100)) [] x]
    simp
  · intro h x
    show x ∈ (calculateShareSplit amount (d.getD [])).map Prod.fst ↔ _
    unfold calculateShareSplit
    rw [if_neg h]
    rw [mem_fst_foldl_setKey (d.getD []) Prod.fst
      (fun p => rnd2 (amount * p.2 / ((d.getD []).map (fun p => p.2)).sum)) [] x]
    simp
  · intro h
    show calculateShareSplit amount (d.getD []) = []
    unfold calculateShareSplit
    rw [if_pos h]

/-- C9 counterexample: with `share` details `{a: 0}` (total zero) the
result is empty, so its key set differs from the key set of
`splitDetails`. -/
theorem split_keys_share_zero_total :
    ¬ (∀ x, x ∈ (calculateSplit 10 .share ["x"] (some [("a", 0)])).map Prod.fst ↔
        x ∈ ([("a", (0 : ℚ))].map Prod.fst)) := by
  intro h
  have := (h "a").mpr (by simp)
  simp [calculateSplit, calculateShareSplit] at this

/-- Witness for `split_keys_from_details` at concrete arguments, checking
the share key-set equality with a nonzero total. -/
theorem split_keys_from_details_witness :
    (((some [("a", (2 : ℚ))]).getD []).map (fun p => p.2)).sum ≠ 0 ∧
    (∀ x, x ∈ (calculateSplit 10 .share ["x"] (some [("a", 2)])).map Prod.fst ↔
        x ∈ (((some [("a", (2 : ℚ))]).getD []).map Prod.fst)) :=
  ⟨by norm_num,
    ((split_keys_from_details 10 ["x"] ["y"] (some [("a", 2)])).2.2.2.1 (by norm_num))⟩

/-! ### Totality of the core: the division-checked variants never fail -/

theorem foldl_setKey_checked (amount den : ℚ) (hden : den ≠ 0)
    (l : List (String × ℚ)) :
    ∀ r : List (String × ℚ),
      l.foldl
        (fun acc p => acc.bind (fun r =>
          (divChecked (amount * p.2) den).map (fun q => setKey r p.1 (rnd2 q))))
        (some r) =
      some (l.foldl (fun r p => setKey r p.1 (rnd2 (amount * p.2 / den))) r) := by
  induction l with
  | nil => intro r; rfl
  | cons p l ih =>
    intro r
    rw [List.foldl_cons, List.foldl_cons]
    have : divChecked (amount * p.2) den = some (amount * p.2 / den) := by
      unfold divChecked
      rw [if_neg hden]
    rw [show (some r).bind (fun r =>
        (divChecked (amount * p.2) den).map (fun q => setKey r p.1 (rnd2 q))) =
        some (setKey r p.1 (rnd2 (amount * p.2 / den))) from by rw [this]; rfl]
    exact ih _

theorem calculateSplitChecked_eq (amount : ℚ) (st : SplitType)
    (ms : List String) (d : Option (List (String × ℚ))) :
    calculateSplitChecked amount st ms d = some (calculateSplit amount st ms d) := by
  cases st
  case equal =>
    cases ms with
    | nil => rfl
    | cons m0 ms' =>
      have hn : (((m0 :: ms').length : ℕ) : ℚ) ≠ 0 := by
        rw [Nat.cast_ne_zero]
        simp
      show calculateEqualSplitChecked amount (m0 :: ms') =
        some (calculateEqualSplit amount (m0 :: ms'))
      unfold calculateEqualSplitChecked calculateEqualSplit divChecked
      rw [if_neg hn]
      rfl
  case unequal => rfl
  case percentage =>
    show calculatePercentageSplitChecked amount (d.getD []) =
      some (calculatePercentageSplit amount (d.getD []))
    unfold calculatePercentageSplitChecked calculatePercentageSplit
    exact foldl_setKey_checked amount 100 (by norm_num) (d.getD []) []
  case share =>
    show calculateShareSplitChecked amount (d.getD []) =
      some (calculateShareSplit amount (d.getD []))
    unfold calculateShareSplitChecked calculateShareSplit
    by_cases h : (((d.getD []).map (fun p => p.2)).sum = 0)
    · rw [if_pos h, if_pos h]
    · rw [if_neg h, if_neg h]
      exact foldl_setKey_checked amount _ h (d.getD []) []

theorem foldlM_expenses_checked (E : List Expense) :
    ∀ pu : (String → ℚ) × (String → ℚ),
      (E.foldlM
        (fun pu e =>
          (calculateSplitChecked e.amount e.splitType e.usedBy e.splitDetails).map
            (fun split =>
              (updAdd pu.1 e.paidBy e.amount,
               split.foldl (fun u kv => updAdd u kv.1 kv.2) pu.2)))
        pu) = some (accExpenses E pu) := by
  induction E with
  | nil => intro pu; rfl
  | cons e E ih =>
    intro pu
    rw [List.foldlM_cons]
    rw [calculateSplitChecked_eq]
    show (some (accExpenses [e] pu)).bind _ = _
    rw [Option.some_bind]
    rw [ih]
    rfl

/-- C7 (confirmed): the split calculator and the balance calculator are
total — every division in them is guarded, so the division-checked
variants never return `none`.  (`calculateDebts` contains no division or
other partial operation at all.) -/
theorem core_functions_total :
    (∀ (amount : ℚ) (st : SplitType) (ms : List String)
        (d : Option (List (String × ℚ))),
      calculateSplitChecked amount st ms d = some (calculateSplit amount st ms d))
    ∧ (∀ (E : List Expense) (Cs : List PoolContribution) (S : List Settlement)
        (M : List Member),
      calculateNetBalancesChecked E Cs S M = some (calculateNetBalances E Cs S M)) := by
  refine ⟨calculateSplitChecked_eq, ?_⟩
  intro E Cs S M
  unfold calculateNetBalancesChecked
  rw [foldlM_expenses_checked]
  rfl

/-- C4 (amended: the rounding semantics is round-half-up — JS `Math.round`
rounds halves toward positive infinity, not away from zero — and it is
applied to each split entry when computed and to each emitted
`totalPaid`/`totalUsed`/`netBalance`; the running `paid`/`used`
accumulations are exact sums of already-rounded addends).  Every monetary
output of `calculateNetBalances` is `rnd2` of the exact accumulated
value. -/
theorem netBalances_rounding (E : List Expense) (Cs : List PoolContribution)
    (S : List Settlement) (M : List Member) :
    ∀ b ∈ calculateNetBalances E Cs S M,
      b.totalPaid = rnd2 (paidFinal E Cs S b.uid)
      ∧ b.totalUsed = rnd2 (usedFinal E Cs S b.uid)
      ∧ b.netBalance = rnd2 (paidFinal E Cs S b.uid - usedFinal E Cs S b.uid) := by
  intro b hb
  unfold calculateNetBalances at hb
  obtain ⟨m, _, rfl⟩ := List.mem_map.mp hb
  exact ⟨rfl, rfl, rfl⟩

/-- Witness for `netBalances_rounding` on a one-member input. -/
theorem netBalances_rounding_witness :
    BalanceSummary.mk "a" "A" none (rnd2 (paidFinal [] [] [] "a"))
        (rnd2 (usedFinal [] [] [] "a"))
        (rnd2 (paidFinal [] [] [] "a" - usedFinal [] [] [] "a"))
      ∈ calculateNetBalances [] [] [] [{ uid := "a", name := "A" }]
    ∧ (rnd2 (paidFinal [] [] [] "a") = rnd2 (paidFinal [] [] [] "a")
      ∧ rnd2 (usedFinal [] [] [] "a") = rnd2 (usedFinal [] [] [] "a")
      ∧ rnd2 (paidFinal [] [] [] "a" - usedFinal [] [] [] "a")
          = rnd2 (paidFinal [] [] [] "a" - usedFinal [] [] [] "a")) := by
  have hmem : BalanceSummary.mk "a" "A" none (rnd2 (paidFinal [] [] [] "a"))
        (rnd2 (usedFinal [] [] [] "a"))
        (rnd2 (paidFinal [] [] [] "a" - usedFinal [] [] [] "a"))
      ∈ calculateNetBalances [] [] [] [{ uid := "a", name := "A" }] := by
    unfold calculateNetBalances
    simp
  exact ⟨hmem, netBalances_rounding [] [] [] [{ uid := "a", name := "A" }] _ hmem⟩

/-- C4 counterexample: on an expense of 0.005 paid by `a` and split
equally between `a` and `c`, member `a`'s exact net is −0.005; JS
`Math.round` (the code) emits 0, while round-half-away-from-zero (the
spec's words) would emit −0.01, so the two disagree. -/
theorem netBalances_not_halfAway :
    (calculateNetBalances
        [{ amount := 5/1000, paidBy := "a", usedBy := ["a", "c"], splitType := .equal }]
        [] [] [{ uid := "a", name := "A" }, { uid := "c", name := "C" }]).map
      BalanceSummary.netBalance = [0, 0]
    ∧ (calculateNetBalancesAway
        [{ amount := 5/1000, paidBy := "a", usedBy := ["a", "c"], splitType := .equal }]
        [] [] [{ uid := "a", name := "A" }, { uid := "c", name := "C" }]).map
      BalanceSummary.netBalance = [-(1/100), 0]
    ∧ calculateNetBalances
        [{ amount := 5/1000, paidBy := "a", usedBy := ["a", "c"], splitType := .equal }]
        [] [] [{ uid := "a", name := "A" }, { uid := "c", name := "C" }]
      ≠ calculateNetBalancesAway
        [{ amount := 5/1000, paidBy := "a", usedBy := ["a", "c"], splitType := .equal }]
        [] [] [{ uid := "a", name := "A" }, { uid := "c", name := "C" }] := by
  have hsplit : calculateSplit (5/1000) .equal ["a", "c"] none =
      [("a", 1/100), ("c", 0)] := by
    show calculateEqualSplit (5/1000) ["a", "c"] = _
    simp +decide [calculateEqualSplit, setKey, getD]
    norm_num [rnd2, jround]
  have h1 : (calculateNetBalances
        [{ amount := 5/1000, paidBy := "a", usedBy := ["a", "c"], splitType := .equal }]
        [] [] [{ uid := "a", name := "A" }, { uid := "c", name := "C" }]).map
      BalanceSummary.netBalance = [0, 0] := by
    unfold calculateNetBalances paidFinal usedFinal accSettlements accContributions
      accExpenses
    simp +decide [hsplit, updAdd]
    norm_num [rnd2, jround]
  have h2 : (calculateNetBalancesAway
        [{ amount := 5/1000, paidBy := "a", usedBy := ["a", "c"], splitType := .equal }]
        [] [] [{ uid := "a", name := "A" }, { uid := "c", name := "C" }]).map
      BalanceSummary.netBalance = [-(1/100), 0] := by
    unfold calculateNetBalancesAway paidFinal usedFinal accSettlements
      accContributions accExpenses
    simp +decide [hsplit, updAdd]
    norm_num [rnd2Away, jroundAway]
  refine ⟨h1, h2, ?_⟩
  intro hc
  rw [hc, h2] at h1
  simp at h1

/-! ### Structure of `calculateNetBalances` output -/

theorem rnd2_zero : rnd2 0 = 0 := by
  norm_num [rnd2, jround]

theorem foldl_updAdd_apply {β : Type} (l : List β) (kf : β → String) (af : β → ℚ)
    (u : String) :
    ∀ f : String → ℚ, (∀ x ∈ l, kf x ≠ u) →
      l.foldl (fun g x => updAdd g (kf x) (af x)) f u = f u := by
  induction l with
  | nil => intro f _; rfl
  | cons b l ih =>
    intro f h
    rw [List.foldl_cons, ih _ (fun x hx => h x (List.mem_cons_of_mem b hx))]
    unfold updAdd
    rw [if_neg]
    intro hc
    exact h b (List.mem_cons_self b l) hc.symm

theorem accExpenses_fst (E : List Expense) :
    ∀ pu, (accExpenses E pu).1 =
      E.foldl (fun p e => updAdd p e.paidBy e.amount) pu.1 := by
  induction E with
  | nil => intro pu; rfl
  | cons e E ih =>
    intro pu
    show (accExpenses E _).1 = _
    rw [ih]
    rfl

theorem accExpenses_snd (E : List Expense) :
    ∀ pu, (accExpenses E pu).2 =
      E.foldl (fun u2 e =>
        (calculateSplit e.amount e.splitType e.usedBy e.splitDetails).foldl
          (fun u kv => updAdd u kv.1 kv.2) u2) pu.2 := by
  induction E with
  | nil => intro pu; rfl
  | cons e E ih =>
    intro pu
    show (accExpenses E _).2 = _
    rw [ih]
    rfl

theorem accSettlements_fst (S : List Settlement) :
    ∀ pu, (accSettlements S pu).1 =
      S.foldl (fun p s => updAdd p s.fromUser s.amount) pu.1 := by
  induction S with
  | nil => intro pu; rfl
  | cons s S ih =>
    intro pu
    show (accSettlements S _).1 = _
    rw [ih]
    rfl

theorem accSettlements_snd (S : List Settlement) :
    ∀ pu, (accSettlements S pu).2 =
      S.foldl (fun q s => updAdd q s.toUser s.amount) pu.2 := by
  induction S with
  | nil => intro pu; rfl
  | cons s S ih =>
    intro pu
    show (accSettlements S _).2 = _
    rw [ih]
    rfl

/-- Every key of an equal-split result is a member of the input list. -/
theorem calculateEqualSplit_keys_subset (amount : ℚ) (ms : List String)
    (x : String) (hx : x ∈ (calculateEqualSplit amount ms).map Prod.fst) :
    x ∈ ms := by
  cases ms with
  | nil => cases hx
  | cons m0 rest =>
    show x ∈ m0 :: rest
    unfold calculateEqualSplit at hx
    dsimp only at hx
    set share := rnd2 (amount / ((m0 :: rest).length : ℚ)) with hshare
    have hfold : ∀ y, y ∈ ((m0 :: rest).foldl
        (fun r uid => setKey r uid share) []).map Prod.fst ↔
        y ∈ ([] : List (String × ℚ)).map Prod.fst ∨ y ∈ (m0 :: rest).map (fun u => u) :=
      fun y => mem_fst_foldl_setKey (m0 :: rest) (fun u => u) (fun _ => share) [] y
    by_cases hd : amount - share * ((m0 :: rest).length : ℚ) ≠ 0
    · rw [if_pos hd] at hx
      rcases (mem_fst_setKey_iff _ _ _ x).mp hx with h1 | rfl
      · have := (hfold x).mp h1
        simpa using this
      · exact List.mem_cons_self _ _
    · rw [if_neg hd] at hx
      have := (hfold x).mp hx
      simpa using this

/-- Every key of a split result comes from `usedBy` or from the keys of
`splitDetails`. -/
theorem calculateSplit_keys_subset (amount : ℚ) (st : SplitType)
    (ms : List String) (d : Option (List (String × ℚ))) (x : String)
    (hx : x ∈ (calculateSplit amount st ms d).map Prod.fst) :
    x ∈ ms ∨ x ∈ (d.getD []).map Prod.fst := by
  cases st
  case equal =>
    exact Or.inl (calculateEqualSplit_keys_subset amount ms x hx)
  case unequal =>
    right
    exact hx
  case percentage =>
    right
    unfold calculateSplit calculatePercentageSplit at hx
    have := (mem_fst_foldl_setKey (d.getD []) Prod.fst
      (fun p => rnd2 (amount * p.2 / 100)) [] x).mp hx
    simpa using this
  case share =>
    right
    unfold calculateSplit calculateShareSplit at hx
    by_cases h : (((d.getD []).map (fun p => p.2)).sum = 0)
    · rw [if_pos h] at hx
      cases hx
    · rw [if_neg h] at hx
      have := (mem_fst_foldl_setKey (d.getD []) Prod.fst
        (fun p => rnd2 (amount * p.2 / ((d.getD []).map (fun p => p.2)).sum)) []
        x).mp hx
      simpa using this

theorem usedFold_apply (E : List Expense) (u : String)
    (h : ∀ e ∈ E, u ∉ e.usedBy ∧ u ∉ (e.splitDetails.getD []).map Prod.fst) :
    ∀ f : String → ℚ,
      E.foldl (fun u2 e =>
        (calculateSplit e.amount e.splitType e.usedBy e.splitDetails).foldl
          (fun g kv => updAdd g kv.1 kv.2) u2) f u = f u := by
  induction E with
  | nil => intro f; rfl
  | cons e E ih =>
    intro f
    rw [List.foldl_cons, ih (fun x hx => h x (List.mem_cons_of_mem e hx))]
    apply foldl_updAdd_apply
    intro kv hkv hc
    have hx : u ∈ (calculateSplit e.amount e.splitType e.usedBy e.splitDetails).map
        Prod.fst := by
      rw [← hc]
      exact List.mem_map_of_mem Prod.fst hkv
    rcases calculateSplit_keys_subset _ _ _ _ _ hx with h1 | h2
    · exact (h e (List.mem_cons_self e E)).1 h1
    · exact (h e (List.mem_cons_self e E)).2 h2

/-- C10 (confirmed): `calculateNetBalances` emits exactly one summary per
member, in order, copying `uid`/`name`/`photoURL`; amounts accumulated
under uids that are not members never appear in the output, and a member
referenced by no expense, contribution or settlement gets all-zero
amounts. -/
theorem netBalances_per_member (E : List Expense) (Cs : List PoolContribution)
    (S : List Settlement) (M : List Member) :
    ((calculateNetBalances E Cs S M).map (fun b => (b.uid, b.name, b.photoURL))
       = M.map (fun m => (m.uid, m.name, m.photoURL)))
    ∧ ∀ u : String,
      (∀ e ∈ E, e.paidBy ≠ u ∧ u ∉ e.usedBy ∧
        u ∉ (e.splitDetails.getD []).map Prod.fst) →
      (∀ c ∈ Cs, c.userId ≠ u) →
      (∀ s ∈ S, s.fromUser ≠ u ∧ s.toUser ≠ u) →
      ∀ b ∈ calculateNetBalances E Cs S M, b.uid = u →
        b.totalPaid = 0 ∧ b.totalUsed = 0 ∧ b.netBalance = 0 := by
  constructor
  · unfold calculateNetBalances
    rw [List.map_map]
    rfl
  · intro u hE hCs hS b hb hbu
    have hp : paidFinal E Cs S u = 0 := by
      unfold paidFinal
      rw [accSettlements_fst]
      rw [foldl_updAdd_apply S (fun s => s.fromUser) (fun s => s.amount) u _
        (fun s hs => (hS s hs).1)]
      show accContributions Cs _ u = 0
      unfold accContributions
      rw [foldl_updAdd_apply Cs (fun c => c.userId) (fun c => c.amount) u _ hCs]
      rw [accExpenses_fst]
      rw [foldl_updAdd_apply E (fun e => e.paidBy) (fun e => e.amount) u _
        (fun e he => (hE e he).1)]
    have hu : usedFinal E Cs S u = 0 := by
      unfold usedFinal
      rw [accSettlements_snd]
      rw [foldl_updAdd_apply S (fun s => s.toUser) (fun s => s.amount) u _
        (fun s hs => (hS s hs).2)]
      rw [accExpenses_snd]
      exact usedFold_apply E u (fun e he => ⟨(hE e he).2.1, (hE e he).2.2⟩) _
    unfold calculateNetBalances at hb
    obtain ⟨m, _, rfl⟩ := List.mem_map.mp hb
    have hm : m.uid = u := hbu
    refine ⟨?_, ?_, ?_⟩
    · show rnd2 (paidFinal E Cs S m.uid) = 0
      rw [hm, hp, rnd2_zero]
    · show rnd2 (usedFinal E Cs S m.uid) = 0
      rw [hm, hu, rnd2_zero]
    · show rnd2 (paidFinal E Cs S m.uid - usedFinal E Cs S m.uid) = 0
      rw [hm, hp, hu, sub_zero, rnd2_zero]

/-- Witness for `netBalances_per_member`: member `b` has no events, so all
its amounts are zero. -/
theorem netBalances_per_member_witness :
    (∀ e ∈ [Expense.mk "" "" 7 "" "others" "direct" "a" ["a"] .equal none 0 ""],
        e.paidBy ≠ "b" ∧ "b" ∉ e.usedBy ∧
        "b" ∉ (e.splitDetails.getD []).map Prod.fst)
    ∧ (∀ c ∈ ([] : List PoolContribution), c.userId ≠ "b")
    ∧ (∀ s ∈ ([] : List Settlement), s.fromUser ≠ "b" ∧ s.toUser ≠ "b")
    ∧ (∀ b ∈ calculateNetBalances
        [Expense.mk "" "" 7 "" "others" "direct" "a" ["a"] .equal none 0 ""] [] []
        [Member.mk "a" "A" "" none, Member.mk "b" "B" "" none], b.uid = "b" →
        b.totalPaid = 0 ∧ b.totalUsed = 0 ∧ b.netBalance = 0) := by
  have hE : ∀ e ∈ [Expense.mk "" "" 7 "" "others" "direct" "a" ["a"] .equal none 0 ""],
      e.paidBy ≠ "b" ∧ "b" ∉ e.usedBy ∧
      "b" ∉ (e.splitDetails.getD []).map Prod.fst := by
    intro e he
    simp only [List.mem_singleton] at he
    subst he
    exact ⟨by simp, by simp, by simp⟩
  refine ⟨hE, by simp, by simp, ?_⟩
  exact (netBalances_per_member
    [Expense.mk "" "" 7 "" "others" "direct" "a" ["a"] .equal none 0 ""] [] []
    [Member.mk "a" "A" "" none, Member.mk "b" "B" "" none]).2 "b"
    hE (by simp) (by simp)

/-! ### Conservation of money -/

theorem sum_map_updAdd (L : List String) (hnd : L.Nodup) (f : String → ℚ)
    (k : String) (a : ℚ) :
    (L.map (updAdd f k a)).sum = (L.map f).sum + (if k ∈ L then a else 0) := by
  induction L with
  | nil => simp
  | cons x L ih =>
    rw [List.nodup_cons] at hnd
    rw [List.map_cons, List.map_cons, List.sum_cons, List.sum_cons,
      ih hnd.2]
    by_cases hxk : x = k
    · subst hxk
      have hk : x ∉ L := hnd.1
      rw [if_neg hk, if_pos (List.mem_cons_self x L)]
      unfold updAdd
      rw [if_pos rfl]
      ring
    · have : updAdd f k a x = f x := by
        unfold updAdd
        rw [if_neg hxk]
      rw [this]
      have hmem : (k ∈ x :: L) ↔ (k ∈ L) := by
        constructor
        · intro h
          rcases List.mem_cons.mp h with h1 | h1
          · exact absurd h1.symm hxk
          · exact h1
        · exact List.mem_cons_of_mem x
      by_cases hkL : k ∈ L
      · rw [if_pos hkL, if_pos (hmem.mpr hkL)]
        ring
      · rw [if_neg hkL, if_neg (fun hc => hkL (hmem.mp hc))]
        ring

theorem sum_map_foldl_updAdd {β : Type} (l : List β) (kf : β → String)
    (af : β → ℚ) (L : List String) (hnd : L.Nodup) :
    ∀ f : String → ℚ, (∀ x ∈ l, kf x ∈ L) →
      (L.map (l.foldl (fun g x => updAdd g (kf x) (af x)) f)).sum =
        (L.map f).sum + (l.map af).sum := by
  induction l with
  | nil => intro f _; simp
  | cons b l ih =>
    intro f hin
    rw [List.foldl_cons, ih _ (fun x hx => hin x (List.mem_cons_of_mem b hx)),
      sum_map_updAdd L hnd f (kf b) (af b),
      if_pos (hin b (List.mem_cons_self b l))]
    rw [List.map_cons, List.sum_cons]
    ring

theorem sum_map_usedFold (E : List Expense) (L : List String) (hnd : L.Nodup) :
    ∀ f : String → ℚ,
      (∀ e ∈ E, ∀ x ∈ (calculateSplit e.amount e.splitType e.usedBy
        e.splitDetails).map Prod.fst, x ∈ L) →
      (L.map (E.foldl (fun u2 e =>
        (calculateSplit e.amount e.splitType e.usedBy e.splitDetails).foldl
          (fun g kv => updAdd g kv.1 kv.2) u2) f)).sum =
        (L.map f).sum + (E.map (fun e =>
          ((calculateSplit e.amount e.splitType e.usedBy e.splitDetails).map
            (fun p => p.2)).sum)).sum := by
  induction E with
  | nil => intro f _; simp
  | cons e E ih =>
    intro f hin
    rw [List.foldl_cons, ih _ (fun x hx => hin x (List.mem_cons_of_mem e hx))]
    rw [sum_map_foldl_updAdd (calculateSplit e.amount e.splitType e.usedBy
      e.splitDetails) Prod.fst (fun p => p.2) L hnd f]
    · rw [List.map_cons, List.sum_cons]
      ring
    · intro x hx
      exact hin e (List.mem_cons_self e E) x.1 (List.mem_map_of_mem Prod.fst hx)

theorem sum_map_sub (L : List String) (f g : String → ℚ) :
    (L.map (fun u => f u - g u)).sum = (L.map f).sum - (L.map g).sum := by
  induction L with
  | nil => simp
  | cons x L ih =>
    simp only [List.map_cons, List.sum_cons, ih]
    ring

theorem updAdd_is2dp {f : String → ℚ} (hf : ∀ u, is2dp (f u)) {k : String}
    {a : ℚ} (ha : is2dp a) : ∀ u, is2dp (updAdd f k a u) := by
  intro u
  unfold updAdd
  by_cases h : u = k
  · rw [if_pos h]
    exact (hf k).add ha
  · rw [if_neg h]
    exact hf u

theorem foldl_updAdd_is2dp {β : Type} (l : List β) (kf : β → String)
    (af : β → ℚ) (h2 : ∀ x ∈ l, is2dp (af x)) :
    ∀ f : String → ℚ, (∀ u, is2dp (f u)) →
      ∀ u, is2dp (l.foldl (fun g x => updAdd g (kf x) (af x)) f u) := by
  induction l with
  | nil => intro f hf u; exact hf u
  | cons b l ih =>
    intro f hf u
    rw [List.foldl_cons]
    exact ih (fun x hx => h2 x (List.mem_cons_of_mem b hx)) _
      (updAdd_is2dp hf (h2 b (List.mem_cons_self b l))) u

/-- Every value stored by a chain of `setKey`s with 2-decimal values is
2-decimal. -/
theorem mem_setKey_cases {m : List (String × ℚ)} {k : String} {v : ℚ}
    {p : String × ℚ} (hp : p ∈ setKey m k v) : p.2 = v ∨ p ∈ m := by
  unfold setKey at hp
  by_cases h : (m.any (fun p => p.1 = k)) = true
  · rw [if_pos h] at hp
    obtain ⟨q, hq, hqe⟩ := List.mem_map.mp hp
    by_cases hqk : q.1 = k
    · rw [if_pos hqk] at hqe
      left
      rw [← hqe]
    · rw [if_neg hqk] at hqe
      right
      rw [← hqe]
      exact hq
  · rw [if_neg h] at hp
    rcases List.mem_append.mp hp with h1 | h1
    · right; exact h1
    · left
      rw [List.mem_singleton.mp h1]

theorem equalSplit_values_2dp (amount : ℚ) (ms : List String) :
    ∀ p ∈ calculateEqualSplit amount ms, is2dp p.2 := by
  cases ms with
  | nil => intro p hp; cases hp
  | cons m0 rest =>
    have hfold : ∀ (l : List String) (r0 : List (String × ℚ)) (v : ℚ),
        is2dp v → (∀ p ∈ r0, is2dp p.2) →
        ∀ p ∈ l.foldl (fun r uid => setKey r uid v) r0, is2dp p.2 := by
      intro l
      induction l with
      | nil => intro r0 v _ hr p hp; exact hr p hp
      | cons x l ih =>
        intro r0 v hv hr p hp
        rw [List.foldl_cons] at hp
        refine ih (setKey r0 x v) v hv ?_ p hp
        intro q hq
        rcases mem_setKey_cases hq with h1 | h1
        · rw [h1]; exact hv
        · exact hr q h1
    intro p hp
    unfold calculateEqualSplit at hp
    dsimp only at hp
    by_cases hd : amount - rnd2 (amount / ((m0 :: rest).length : ℚ)) *
        ((m0 :: rest).length : ℚ) ≠ 0
    · rw [if_pos hd] at hp
      rcases mem_setKey_cases hp with h1 | h1
      · rw [h1]; exact is2dp_rnd2 _
      · exact hfold (m0 :: rest) [] _ (is2dp_rnd2 _) (by simp) p h1
    · rw [if_neg hd] at hp
      exact hfold (m0 :: rest) [] _ (is2dp_rnd2 _) (by simp) p hp

/-- C1 (amended: conservation holds on inputs the pooled-accounting model
actually balances — no pool contributions, equal-split expenses with
whole-cent amounts paid by a member and used by a non-empty duplicate-free
set of members, settlements between members with whole-cent amounts, and
duplicate-free member uids; in fact the sum is then exactly 0).  The
netBalances then sum to within 0.02 of zero. -/
theorem netBalances_conservation (E : List Expense)
    (Cs : List PoolContribution) (S : List Settlement) (M : List Member)
    (hndM : (M.map Member.uid).Nodup)
    (hE : ∀ e ∈ E, e.splitType = .equal ∧ is2dp e.amount ∧
      e.paidBy ∈ M.map Member.uid ∧ e.usedBy ≠ [] ∧ e.usedBy.Nodup ∧
      ∀ u ∈ e.usedBy, u ∈ M.map Member.uid)
    (hCs : Cs = [])
    (hS : ∀ s ∈ S, is2dp s.amount ∧ s.fromUser ∈ M.map Member.uid ∧
      s.toUser ∈ M.map Member.uid) :
    |((calculateNetBalances E Cs S M).map BalanceSummary.netBalance).sum| ≤ 1/50 := by
  subst hCs
  set L := M.map Member.uid with hL
  -- the paid/used maps take 2-decimal values everywhere
  have hsplit2dp : ∀ e ∈ E, ∀ kv ∈ (calculateSplit e.amount e.splitType e.usedBy
      e.splitDetails), is2dp kv.2 := by
    intro e he kv hkv
    rw [(hE e he).1] at hkv
    exact equalSplit_values_2dp e.amount e.usedBy kv hkv
  have hpaid2 : ∀ u, is2dp (paidFinal E [] S u) := by
    intro u
    unfold paidFinal
    rw [accSettlements_fst]
    refine foldl_updAdd_is2dp S (fun s => s.fromUser) (fun s => s.amount)
      (fun s hs => (hS s hs).1) _ ?_ u
    intro w
    show is2dp (accContributions [] (accExpenses E (fun _ => 0, fun _ => 0)).1 w)
    unfold accContributions
    rw [List.foldl_nil, accExpenses_fst]
    exact foldl_updAdd_is2dp E (fun e => e.paidBy) (fun e => e.amount)
      (fun e he => (hE e he).2.1) _ (fun _ => is2dp_zero) w
  have hused2 : ∀ u, is2dp (usedFinal E [] S u) := by
    intro u
    unfold usedFinal
    rw [accSettlements_snd]
    refine foldl_updAdd_is2dp S (fun s => s.toUser) (fun s => s.amount)
      (fun s hs => (hS s hs).1) _ ?_ u
    rw [accExpenses_snd]
    -- nested: fold over expenses of folds over split entries
    intro w
    show is2dp (E.foldl (fun u2 e =>
      (calculateSplit e.amount e.splitType e.usedBy e.splitDetails).foldl
        (fun g kv => updAdd g kv.1 kv.2) u2) (fun _ => 0) w)
    have : ∀ (E' : List Expense), (∀ e ∈ E', ∀ kv ∈ (calculateSplit e.amount
        e.splitType e.usedBy e.splitDetails), is2dp kv.2) →
        ∀ f : String → ℚ, (∀ v, is2dp (f v)) →
        ∀ v, is2dp (E'.foldl (fun u2 e =>
          (calculateSplit e.amount e.splitType e.usedBy e.splitDetails).foldl
            (fun g kv => updAdd g kv.1 kv.2) u2) f v) := by
      intro E'
      induction E' with
      | nil => intro _ f hf v; exact hf v
      | cons e E' ih =>
        intro hk f hf v
        rw [List.foldl_cons]
        refine ih (fun x hx => hk x (List.mem_cons_of_mem e hx)) _ ?_ v
        exact foldl_updAdd_is2dp _ Prod.fst (fun p => p.2)
          (fun kv hkv => hk e (List.mem_cons_self e E') kv hkv) f hf
    exact this E hsplit2dp (fun _ => 0) (fun _ => is2dp_zero) w
  -- drop the final rounding
  have hnetmap : (calculateNetBalances E [] S M).map BalanceSummary.netBalance =
      L.map (fun u => paidFinal E [] S u - usedFinal E [] S u) := by
    unfold calculateNetBalances
    rw [List.map_map, hL, List.map_map]
    apply List.map_congr_left
    intro m _
    show rnd2 (paidFinal E [] S m.uid - usedFinal E [] S m.uid) = _
    exact rnd2_eq_self ((hpaid2 m.uid).sub (hused2 m.uid))
  rw [hnetmap, sum_map_sub]
  -- total paid over the members
  have hpaidsum : (L.map (paidFinal E [] S)).sum =
      (E.map (fun e => e.amount)).sum + (S.map (fun s => s.amount)).sum := by
    unfold paidFinal
    rw [accSettlements_fst]
    rw [sum_map_foldl_updAdd S (fun s => s.fromUser) (fun s => s.amount) L hndM _
      (fun s hs => (hS s hs).2.1)]
    have hbase : (L.map (accContributions []
        (accExpenses E (fun _ => 0, fun _ => 0)).1)).sum =
        (E.map (fun e => e.amount)).sum := by
      show (L.map ((accExpenses E (fun _ => 0, fun _ => 0)).1)).sum = _
      rw [accExpenses_fst]
      rw [sum_map_foldl_updAdd E (fun e => e.paidBy) (fun e => e.amount) L hndM _
        (fun e he => (hE e he).2.2.1)]
      have : (L.map (fun _ => (0 : ℚ))).sum = 0 := by
        rw [sum_map_const]
        ring
      rw [this, zero_add]
    rw [hbase]
  -- total used over the members
  have husedsum : (L.map (usedFinal E [] S)).sum =
      (E.map (fun e => e.amount)).sum + (S.map (fun s => s.amount)).sum := by
    unfold usedFinal
    rw [accSettlements_snd]
    rw [sum_map_foldl_updAdd S (fun s => s.toUser) (fun s => s.amount) L hndM _
      (fun s hs => (hS s hs).2.2)]
    rw [accExpenses_snd]
    rw [sum_map_usedFold E L hndM _ ?_]
    · have h0 : (L.map (fun _ => (0 : ℚ))).sum = 0 := by
        rw [sum_map_const]
        ring
      rw [h0, zero_add]
      have hmaps : E.map (fun e => ((calculateSplit e.amount e.splitType e.usedBy
          e.splitDetails).map (fun p => p.2)).sum) = E.map (fun e => e.amount) := by
        apply List.map_congr_left
        intro e he
        rw [(hE e he).1]
        obtain ⟨u0, rest, hu⟩ := List.exists_cons_of_ne_nil (hE e he).2.2.2.1
        show ((calculateEqualSplit e.amount e.usedBy).map (fun p => p.2)).sum =
          e.amount
        rw [hu]
        exact calculateEqualSplit_sum e.amount u0 rest (hu ▸ (hE e he).2.2.2.2.1)
          (hE e he).2.1
      rw [hmaps]
    · intro e he x hx
      rw [(hE e he).1] at hx
      exact (hE e he).2.2.2.2.2 x
        (calculateEqualSplit_keys_subset e.amount e.usedBy x hx)
  rw [hpaidsum, husedsum]
  norm_num

/-- C1 counterexample: a single pool contribution of 100 by the only
member makes the netBalances sum to 100, not to within 0.02 of zero
(nothing on the `used` side ever matches a contribution). -/
theorem netBalances_conservation_fails :
    ¬ |((calculateNetBalances [] [PoolContribution.mk "" "" "a" 100 "" 0] []
        [Member.mk "a" "A" "" none]).map BalanceSummary.netBalance).sum| ≤ 1/50 := by
  have hval : ((calculateNetBalances [] [PoolContribution.mk "" "" "a" 100 "" 0] []
      [Member.mk "a" "A" "" none]).map BalanceSummary.netBalance).sum = 100 := by
    unfold calculateNetBalances paidFinal usedFinal accSettlements accContributions
      accExpenses
    simp +decide [updAdd]
    norm_num [rnd2, jround]
  rw [hval]
  norm_num

/-- Witness for `netBalances_conservation`: two members, one 100-unit
equally split expense. -/
theorem netBalances_conservation_witness :
    (([Member.mk "a" "A" "" none, Member.mk "b" "B" "" none].map Member.uid).Nodup
    ∧ (∀ e ∈ [Expense.mk "" "" 100 "" "others" "direct" "a" ["a", "b"] .equal none 0 ""],
        e.splitType = .equal ∧ is2dp e.amount ∧
        e.paidBy ∈ [Member.mk "a" "A" "" none, Member.mk "b" "B" "" none].map Member.uid ∧
        e.usedBy ≠ [] ∧ e.usedBy.Nodup ∧
        ∀ u ∈ e.usedBy, u ∈ [Member.mk "a" "A" "" none, Member.mk "b" "B" "" none].map Member.uid)
    ∧ (∀ s ∈ ([] : List Settlement), is2dp s.amount ∧
        s.fromUser ∈ [Member.mk "a" "A" "" none, Member.mk "b" "B" "" none].map Member.uid ∧
        s.toUser ∈ [Member.mk "a" "A" "" none, Member.mk "b" "B" "" none].map Member.uid))
    ∧ |((calculateNetBalances
        [Expense.mk "" "" 100 "" "others" "direct" "a" ["a", "b"] .equal none 0 ""]
        [] [] [Member.mk "a" "A" "" none, Member.mk "b" "B" "" none]).map
        BalanceSummary.netBalance).sum| ≤ 1/50 := by
  have hnd : (([Member.mk "a" "A" "" none, Member.mk "b" "B" "" none]).map
      Member.uid).Nodup := by simp
  have hE : ∀ e ∈ [Expense.mk "" "" 100 "" "others" "direct" "a" ["a", "b"] .equal none 0 ""],
      e.splitType = .equal ∧ is2dp e.amount ∧
      e.paidBy ∈ [Member.mk "a" "A" "" none, Member.mk "b" "B" "" none].map Member.uid ∧
      e.usedBy ≠ [] ∧ e.usedBy.Nodup ∧
      ∀ u ∈ e.usedBy, u ∈ [Member.mk "a" "A" "" none, Member.mk "b" "B" "" none].map
        Member.uid := by
    intro e he
    simp only [List.mem_singleton] at he
    subst he
    refine ⟨rfl, ⟨10000, by norm_num⟩, by simp, by simp, by simp, by simp⟩
  have hS : ∀ s ∈ ([] : List Settlement), is2dp s.amount ∧
      s.fromUser ∈ [Member.mk "a" "A" "" none, Member.mk "b" "B" "" none].map Member.uid ∧
      s.toUser ∈ [Member.mk "a" "A" "" none, Member.mk "b" "B" "" none].map Member.uid := by
    simp
  exact ⟨⟨hnd, hE, hS⟩, netBalances_conservation _ _ _ _ hnd hE rfl hS⟩

/-! ### The settlement loop -/

theorem settle_nil_left (C : List (String × ℚ)) : settle [] C = [] := by
  simp [settle]

theorem settle_nil_right (h : String × ℚ) (t : List (String × ℚ)) :
    settle (h :: t) [] = [] := by
  simp [settle]

theorem settle_cons_cons (ud : String) (d : ℚ) (ds : List (String × ℚ))
    (uc : String) (c : ℚ) (cs : List (String × ℚ)) :
    settle ((ud, d) :: ds) ((uc, c) :: cs) =
      (if 1/100 < min d c then [Debt.mk ud uc (rnd2 (min d c))] else []) ++
        (if d - min d c < 1/100 then
          (if c - min d c < 1/100 then settle ds cs
           else settle ds ((uc, c - min d c) :: cs))
         else settle ((ud, d - min d c) :: ds) cs) := by
  rw [settle]
  by_cases h1 : d - min d c < 1/100
  · by_cases h2 : c - min d c < 1/100
    · simp only [if_pos h1, if_pos h2]
    · simp only [if_pos h1, if_neg h2]
  · simp only [if_neg h1]

theorem settle_mem : ∀ (D C : List (String × ℚ)), ∀ dbt ∈ settle D C,
    dbt.«from» ∈ D.map Prod.fst ∧ dbt.«to» ∈ C.map Prod.fst := by
  intro D C
  induction D, C using settle.induct with
  | case1 C => intro dbt hd; rw [settle_nil_left] at hd; cases hd
  | case2 h t => intro dbt hd; rw [settle_nil_right] at hd; cases hd
  | case3 ud d ds uc c cs a h1 h2 ih =>
    intro dbt hd
    rw [settle_cons_cons, if_pos h1, if_pos h2] at hd
    rcases List.mem_append.mp hd with hp | hr
    · by_cases hc : 1/100 < min d c
      · rw [if_pos hc] at hp
        rw [List.mem_singleton.mp hp]
        exact ⟨List.mem_cons_self _ _, List.mem_cons_self _ _⟩
      · rw [if_neg hc] at hp
        cases hp
    · obtain ⟨hf, ht⟩ := ih dbt hr
      exact ⟨List.mem_cons_of_mem _ hf, List.mem_cons_of_mem _ ht⟩
  | case4 ud d ds uc c cs a h1 h2 ih =>
    intro dbt hd
    rw [settle_cons_cons, if_pos h1, if_neg h2] at hd
    rcases List.mem_append.mp hd with hp | hr
    · by_cases hc : 1/100 < min d c
      · rw [if_pos hc] at hp
        rw [List.mem_singleton.mp hp]
        exact ⟨List.mem_cons_self _ _, List.mem_cons_self _ _⟩
      · rw [if_neg hc] at hp
        cases hp
    · obtain ⟨hf, ht⟩ := ih dbt hr
      refine ⟨List.mem_cons_of_mem _ hf, ?_⟩
      simpa using ht
  | case5 ud d ds uc c cs a h1 ih =>
    intro dbt hd
    rw [settle_cons_cons, if_neg h1] at hd
    rcases List.mem_append.mp hd with hp | hr
    · by_cases hc : 1/100 < min d c
      · rw [if_pos hc] at hp
        rw [List.mem_singleton.mp hp]
        exact ⟨List.mem_cons_self _ _, List.mem_cons_self _ _⟩
      · rw [if_neg hc] at hp
        cases hp
    · obtain ⟨hf, ht⟩ := ih dbt hr
      refine ⟨?_, List.mem_cons_of_mem _ ht⟩
      simpa using hf

theorem settle_length : ∀ (D C : List (String × ℚ)),
    (settle D C).length ≤ D.length + C.length - 1 := by
  intro D C
  induction D, C using settle.induct with
  | case1 C => rw [settle_nil_left]; simp
  | case2 h t => rw [settle_nil_right]; simp
  | case3 ud d ds uc c cs a h1 h2 ih =>
    rw [settle_cons_cons, if_pos h1, if_pos h2, List.length_append]
    have hp : (if 1/100 < min d c then [Debt.mk ud uc (rnd2 (min d c))]
        else []).length ≤ 1 := by
      split <;> simp
    simp only [List.length_cons]
    omega
  | case4 ud d ds uc c cs a h1 h2 ih =>
    rw [settle_cons_cons, if_pos h1, if_neg h2, List.length_append]
    have hp : (if 1/100 < min d c then [Debt.mk ud uc (rnd2 (min d c))]
        else []).length ≤ 1 := by
      split <;> simp
    have ih2 : (settle ds ((uc, c - d ⊓ c) :: cs)).length ≤
        ds.length + ((uc, c - d ⊓ c) :: cs).length - 1 := ih
    simp only [List.length_cons] at ih2 ⊢
    omega
  | case5 ud d ds uc c cs a h1 ih =>
    rw [settle_cons_cons, if_neg h1, List.length_append]
    have hp : (if 1/100 < min d c then [Debt.mk ud uc (rnd2 (min d c))]
        else []).length ≤ 1 := by
      split <;> simp
    have ih2 : (settle ((ud, d - d ⊓ c) :: ds) cs).length ≤
        ((ud, d - d ⊓ c) :: ds).length + cs.length - 1 := ih
    simp only [List.length_cons] at ih2 ⊢
    omega

/-- C6 (confirmed; the count bound is read in truncated natural-number
subtraction, under which the empty/empty case is also true): the number of
debts is at most `#debtors + #creditors - 1`, and an empty debtor or
creditor partition yields no debts. -/
theorem calculateDebts_count (balances : List BalanceSummary) :
    (calculateDebts balances).length ≤
      (balances.filter (fun b => b.netBalance < -(1/100))).length +
        (balances.filter (fun b => 1/100 < b.netBalance)).length - 1
    ∧ ((balances.filter (fun b => b.netBalance < -(1/100)) = [] ∨
        balances.filter (fun b => 1/100 < b.netBalance) = []) →
        calculateDebts balances = []) := by
  constructor
  · unfold calculateDebts
    have h := settle_length
      (((balances.filter (fun b => b.netBalance < -(1/100))).map
        (fun b => (b.uid, |b.netBalance|))).mergeSort (fun x y => y.2 ≤ x.2))
      (((balances.filter (fun b => 1/100 < b.netBalance)).map
        (fun b => (b.uid, b.netBalance))).mergeSort (fun x y => y.2 ≤ x.2))
    calc _ ≤ _ := h
      _ = _ := by
        rw [(List.mergeSort_perm _ _).length_eq, (List.mergeSort_perm _ _).length_eq,
          List.length_map, List.length_map]
  · intro hor
    unfold calculateDebts
    rcases hor with h | h
    · rw [h]
      have : (([] : List (String × ℚ)).mergeSort (fun x y => y.2 ≤ x.2)) = [] :=
        (List.mergeSort_perm _ _).eq_nil
      show settle ((([] : List BalanceSummary).map
        (fun b => (b.uid, |b.netBalance|))).mergeSort (fun x y => y.2 ≤ x.2)) _ = []
      rw [List.map_nil, this, settle_nil_left]
    · rw [h]
      have h2 : (([] : List (String × ℚ)).mergeSort (fun x y => y.2 ≤ x.2)) = [] :=
        (List.mergeSort_perm _ _).eq_nil
      show settle _ ((([] : List BalanceSummary).map
        (fun b => (b.uid, b.netBalance))).mergeSort (fun x y => y.2 ≤ x.2)) = []
      rw [List.map_nil, h2]
      cases hD : (((balances.filter (fun b => b.netBalance < -(1/100))).map
          (fun b => (b.uid, |b.netBalance|))).mergeSort (fun x y => y.2 ≤ x.2)) with
      | nil => rw [settle_nil_left]
      | cons x t => rw [settle_nil_right]

/-- Witness for `calculateDebts_count` at the empty balance list. -/
theorem calculateDebts_count_witness :
    (([] : List BalanceSummary).filter (fun b => b.netBalance < -(1/100)) = [] ∨
      ([] : List BalanceSummary).filter (fun b => 1/100 < b.netBalance) = [])
    ∧ calculateDebts [] = [] := by
  have h : (([] : List BalanceSummary).filter (fun b => b.netBalance < -(1/100)) = [] ∨
      ([] : List BalanceSummary).filter (fun b => 1/100 < b.netBalance) = []) :=
    Or.inl rfl
  exact ⟨h, (calculateDebts_count []).2 h⟩

/-- C5 (amended: the balance list must have pairwise-distinct uids — the
code trusts uids as identities, and a duplicated uid can appear as both
debtor and creditor).  No returned debt is from a member to itself. -/
theorem calculateDebts_no_self_debt (balances : List BalanceSummary)
    (hnd : (balances.map BalanceSummary.uid).Nodup) :
    ∀ dbt ∈ calculateDebts balances, dbt.«from» ≠ dbt.«to» := by
  intro dbt hd heq
  unfold calculateDebts at hd
  obtain ⟨hf, ht⟩ := settle_mem _ _ dbt hd
  rw [(List.mergeSort_perm _ _).map Prod.fst |>.mem_iff] at hf ht
  rw [List.map_map] at hf ht
  obtain ⟨b1, hb1, hb1e⟩ := List.mem_map.mp hf
  obtain ⟨b2, hb2, hb2e⟩ := List.mem_map.mp ht
  obtain ⟨hb1m, hb1lt⟩ := List.mem_filter.mp hb1
  obtain ⟨hb2m, hb2gt⟩ := List.mem_filter.mp hb2
  have huid : b1.uid = b2.uid := by
    have e1 : b1.uid = dbt.«from» := hb1e
    have e2 : b2.uid = dbt.«to» := hb2e
    rw [e1, e2, heq]
  have hbb : b1 = b2 := List.inj_on_of_nodup_map hnd hb1m hb2m huid
  rw [hbb] at hb1lt
  simp only [decide_eq_true_eq] at hb1lt hb2gt
  linarith

/-- C5 counterexample: two balance entries sharing uid `a` (one +5, one
−5) produce the self-debt `a → a`. -/
theorem calculateDebts_self_debt_dup :
    ¬ (∀ dbt ∈ calculateDebts
        [BalanceSummary.mk "a" "A" none 5 0 5, BalanceSummary.mk "a" "A" none 0 5 (-5)],
        dbt.«from» ≠ dbt.«to») := by
  have hval : calculateDebts
      [BalanceSummary.mk "a" "A" none 5 0 5, BalanceSummary.mk "a" "A" none 0 5 (-5)] =
      [Debt.mk "a" "a" 5] := by
    rw [calculateDebts]
    norm_num [List.filter_cons, List.filter_nil]
    rw [settle_cons_cons]
    norm_num [min_def, rnd2, jround, settle_nil_left]
  intro h
  exact h (Debt.mk "a" "a" 5) (by rw [hval]; exact List.mem_singleton_self _) rfl

/-- Witness for `calculateDebts_no_self_debt` on distinct uids. -/
theorem calculateDebts_no_self_debt_witness :
    (([BalanceSummary.mk "a" "A" none 5 0 5,
       BalanceSummary.mk "b" "B" none 0 5 (-5)].map BalanceSummary.uid).Nodup)
    ∧ ∀ dbt ∈ calculateDebts
        [BalanceSummary.mk "a" "A" none 5 0 5, BalanceSummary.mk "b" "B" none 0 5 (-5)],
        dbt.«from» ≠ dbt.«to» :=
  ⟨by simp, calculateDebts_no_self_debt _ (by simp)⟩

/-! ### Residual accounting for the settlement loop -/

theorem goodSide_tail {x : String × ℚ} {xs : List (String × ℚ)}
    (h : goodSide (x :: xs)) : goodSide xs := by
  obtain ⟨h1, _, h3⟩ := h
  refine ⟨fun p hp => h1 p (List.mem_cons_of_mem x hp), ?_, ?_⟩
  · intro p hp
    have : (2 : ℚ)/100 ≤ p.2 := h3 p hp
    linarith
  · intro p hp
    exact h3 p (List.mem_of_mem_tail hp)

theorem sumAmt_nil : sumAmt [] = 0 := rfl

theorem sumAmt_cons (x : String × ℚ) (xs : List (String × ℚ)) :
    sumAmt (x :: xs) = x.2 + sumAmt xs := by
  unfold sumAmt
  rw [List.map_cons, List.sum_cons]

theorem sumAmt_nonneg {L : List (String × ℚ)} (h : ∀ p ∈ L, 0 ≤ p.2) :
    0 ≤ sumAmt L := by
  induction L with
  | nil => rw [sumAmt_nil]
  | cons x xs ih =>
    rw [sumAmt_cons]
    have := h x (List.mem_cons_self x xs)
    have := ih (fun p hp => h p (List.mem_cons_of_mem x hp))
    linarith

theorem eq_nil_of_good_sum_zero {L : List (String × ℚ)} (hg : goodSide L)
    (hs : sumAmt L = 0) : L = [] := by
  cases L with
  | nil => rfl
  | cons x xs =>
    exfalso
    have hx : (1 : ℚ)/100 ≤ x.2 := hg.2.1 x (List.mem_cons_self x xs)
    have hxs : 0 ≤ sumAmt xs := sumAmt_nonneg (fun p hp => by
      have : (1 : ℚ)/100 ≤ p.2 := hg.2.1 p (List.mem_cons_of_mem x hp)
      linarith)
    rw [sumAmt_cons] at hs
    linarith

theorem fromTotal_nil (u : String) : fromTotal [] u = 0 := rfl

theorem toTotal_nil (u : String) : toTotal [] u = 0 := rfl

theorem fromTotal_append (L1 L2 : List Debt) (u : String) :
    fromTotal (L1 ++ L2) u = fromTotal L1 u + fromTotal L2 u := by
  unfold fromTotal
  rw [List.filter_append, List.map_append, List.sum_append]

theorem toTotal_append (L1 L2 : List Debt) (u : String) :
    toTotal (L1 ++ L2) u = toTotal L1 u + toTotal L2 u := by
  unfold toTotal
  rw [List.filter_append, List.map_append, List.sum_append]

theorem fromTotal_push (ud uc : String) (amt : ℚ) (cond : Prop)
    [Decidable cond] (u : String) :
    fromTotal (if cond then [Debt.mk ud uc amt] else []) u =
      if cond ∧ ud = u then amt else 0 := by
  by_cases h : cond
  · rw [if_pos h]
    unfold fromTotal
    by_cases hu : ud = u
    · rw [if_pos ⟨h, hu⟩]
      simp [List.filter, hu]
    · rw [if_neg (fun hc => hu hc.2)]
      simp [List.filter, hu]
  · rw [if_neg h, if_neg (fun hc => h hc.1), fromTotal_nil]

theorem toTotal_push (ud uc : String) (amt : ℚ) (cond : Prop)
    [Decidable cond] (u : String) :
    toTotal (if cond then [Debt.mk ud uc amt] else []) u =
      if cond ∧ uc = u then amt else 0 := by
  by_cases h : cond
  · rw [if_pos h]
    unfold toTotal
    by_cases hu : uc = u
    · rw [if_pos ⟨h, hu⟩]
      simp [List.filter, hu]
    · rw [if_neg (fun hc => hu hc.2)]
      simp [List.filter, hu]
  · rw [if_neg h, if_neg (fun hc => h hc.1), toTotal_nil]

theorem fromTotal_eq_zero {L : List Debt} {u : String}
    (h : ∀ dbt ∈ L, dbt.«from» ≠ u) : fromTotal L u = 0 := by
  unfold fromTotal
  have : L.filter (fun d => d.«from» = u) = [] := by
    rw [List.filter_eq_nil_iff]
    intro dbt hd
    simp only [decide_eq_true_eq]
    exact h dbt hd
  rw [this]
  rfl

theorem toTotal_eq_zero {L : List Debt} {u : String}
    (h : ∀ dbt ∈ L, dbt.«to» ≠ u) : toTotal L u = 0 := by
  unfold toTotal
  have : L.filter (fun d => d.«to» = u) = [] := by
    rw [List.filter_eq_nil_iff]
    intro dbt hd
    simp only [decide_eq_true_eq]
    exact h dbt hd
  rw [this]
  rfl

theorem fromTotal_settle_zero {D C : List (String × ℚ)} {u : String}
    (h : u ∉ D.map Prod.fst) : fromTotal (settle D C) u = 0 :=
  fromTotal_eq_zero (fun dbt hd hc => h (hc ▸ (settle_mem D C dbt hd).1))

theorem toTotal_settle_zero {D C : List (String × ℚ)} {u : String}
    (h : u ∉ C.map Prod.fst) : toTotal (settle D C) u = 0 :=
  toTotal_eq_zero (fun dbt hd hc => h (hc ▸ (settle_mem D C dbt hd).2))

/-- Core invariant proof for the settlement loop: when both working lists
hold whole-cent amounts at least one cent each (untouched entries above
the 0.01 filter threshold), with equal totals and globally distinct uids,
every participant's unrecorded residual lies in `[0, 0.02]`; moreover the
current head's residual is at most `0.01` whenever the opposite head is an
untouched (≥ 0.02) entry.  Residuals up to 0.02 arise because a transfer of
exactly 0.01 is dropped by the `amount > 0.01` check. -/
theorem settle_residual_bounds : ∀ (D C : List (String × ℚ)), settleInv D C →
    ((∀ p ∈ D, 0 ≤ p.2 - fromTotal (settle D C) p.1 ∧
        p.2 - fromTotal (settle D C) p.1 ≤ 2/100)
    ∧ (∀ q ∈ C, 0 ≤ q.2 - toTotal (settle D C) q.1 ∧
        q.2 - toTotal (settle D C) q.1 ≤ 2/100)
    ∧ (∀ ud d ds uc c cs, D = (ud, d) :: ds → C = (uc, c) :: cs →
        ((2/100 ≤ c → d - fromTotal (settle D C) ud ≤ 1/100)
        ∧ (2/100 ≤ d → c - toTotal (settle D C) uc ≤ 1/100)))) := by
  intro D C
  induction D, C using settle.induct with
  | case1 C =>
    intro hInv
    have hC : C = [] := eq_nil_of_good_sum_zero hInv.2.1 (by
      rw [← hInv.2.2.1]; rfl)
    subst hC
    refine ⟨fun p hp => absurd hp (by simp), fun q hq => absurd hq (by simp), ?_⟩
    intro ud d ds uc c cs hD hC
    exact absurd hD (by simp)
  | case2 h t =>
    intro hInv
    exfalso
    have hD : h :: t = [] := eq_nil_of_good_sum_zero hInv.1 (by
      rw [hInv.2.2.1]; rfl)
    exact absurd hD (by simp)
  | case3 ud d ds uc c cs a h1 h2 ih =>
    intro hInv
    have h1' : d - min d c < 1/100 := h1
    have h2' : c - min d c < 1/100 := h2
    obtain ⟨hgD, hgC, hsum, hnd⟩ := hInv
    have hd2 : is2dp d := hgD.1 (ud, d) (List.mem_cons_self _ _)
    have hc2 : is2dp c := hgC.1 (uc, c) (List.mem_cons_self _ _)
    have hd1 : (1:ℚ)/100 ≤ d := hgD.2.1 (ud, d) (List.mem_cons_self _ _)
    have hc1 : (1:ℚ)/100 ≤ c := hgC.2.1 (uc, c) (List.mem_cons_self _ _)
    have ha2 : is2dp (min d c) := hd2.min hc2
    have ha1 : (1:ℚ)/100 ≤ min d c := le_min hd1 hc1
    have hrnd : rnd2 (min d c) = min d c := rnd2_eq_self ha2
    have hd0 : d - min d c = 0 := is2dp_eq_zero_of_lt_cent (hd2.sub ha2)
      (by have := min_le_left d c; linarith) h1'
    have hc0 : c - min d c = 0 := is2dp_eq_zero_of_lt_cent (hc2.sub ha2)
      (by have := min_le_right d c; linarith) h2'
    have hda : d = min d c := by linarith
    have hca : c = min d c := by linarith
    have hsum' : d + sumAmt ds = c + sumAmt cs := by
      rw [sumAmt_cons, sumAmt_cons] at hsum
      exact hsum
    have hInv' : settleInv ds cs := by
      refine ⟨goodSide_tail hgD, goodSide_tail hgC, ?_, ?_⟩
      · have hdc : d = c := by linarith
        linarith
      · have hsub : (ds.map Prod.fst ++ cs.map Prod.fst).Sublist
            ((((ud, d) :: ds).map Prod.fst) ++ (((uc, c) :: cs).map Prod.fst)) := by
          simp only [List.map_cons]
          exact List.Sublist.append (List.sublist_cons_self _ _) (List.sublist_cons_self _ _)
        exact hnd.sublist hsub
    obtain ⟨ihD, ihC, ihH⟩ := ih hInv'
    have hL : settle ((ud, d) :: ds) ((uc, c) :: cs) =
        (if 1/100 < min d c then [Debt.mk ud uc (rnd2 (min d c))] else []) ++
          settle ds cs := by
      rw [settle_cons_cons, if_pos h1', if_pos h2']
    rw [List.map_cons, List.map_cons, List.nodup_append] at hnd
    have hudds : ud ∉ ds.map Prod.fst := (List.nodup_cons.mp hnd.1).1
    have huccs : uc ∉ cs.map Prod.fst := (List.nodup_cons.mp hnd.2.1).1
    have hFrom : ∀ u, fromTotal (settle ((ud, d) :: ds) ((uc, c) :: cs)) u =
        (if 1/100 < min d c ∧ ud = u then min d c else 0) +
          fromTotal (settle ds cs) u := by
      intro u
      rw [hL, fromTotal_append, fromTotal_push, hrnd]
    have hTo : ∀ u, toTotal (settle ((ud, d) :: ds) ((uc, c) :: cs)) u =
        (if 1/100 < min d c ∧ uc = u then min d c else 0) +
          toTotal (settle ds cs) u := by
      intro u
      rw [hL, toTotal_append, toTotal_push, hrnd]
    have hFud : fromTotal (settle ((ud, d) :: ds) ((uc, c) :: cs)) ud =
        if 1/100 < min d c then min d c else 0 := by
      rw [hFrom ud, fromTotal_settle_zero hudds, add_zero]
      by_cases h : 1/100 < min d c
      · rw [if_pos ⟨h, rfl⟩, if_pos h]
      · rw [if_neg (fun hc => h hc.1), if_neg h]
    have hTuc : toTotal (settle ((ud, d) :: ds) ((uc, c) :: cs)) uc =
        if 1/100 < min d c then min d c else 0 := by
      rw [hTo uc, toTotal_settle_zero huccs, add_zero]
      by_cases h : 1/100 < min d c
      · rw [if_pos ⟨h, rfl⟩, if_pos h]
      · rw [if_neg (fun hc => h hc.1), if_neg h]
    have hacases := is2dp_cent_cases ha2 ha1
    have hresid_d : 0 ≤ d - fromTotal (settle ((ud, d) :: ds) ((uc, c) :: cs)) ud ∧
        d - fromTotal (settle ((ud, d) :: ds) ((uc, c) :: cs)) ud ≤ 1/100 := by
      rw [hFud]
      rcases hacases with hone | htwo
      · rw [if_neg (by rw [hone]; exact lt_irrefl _)]
        exact ⟨by linarith, by linarith⟩
      · rw [if_pos (by linarith)]
        exact ⟨by linarith, by linarith⟩
    have hresid_c : 0 ≤ c - toTotal (settle ((ud, d) :: ds) ((uc, c) :: cs)) uc ∧
        c - toTotal (settle ((ud, d) :: ds) ((uc, c) :: cs)) uc ≤ 1/100 := by
      rw [hTuc]
      rcases hacases with hone | htwo
      · rw [if_neg (by rw [hone]; exact lt_irrefl _)]
        exact ⟨by linarith, by linarith⟩
      · rw [if_pos (by linarith)]
        exact ⟨by linarith, by linarith⟩
    refine ⟨?_, ?_, ?_⟩
    · intro p hp
      rcases List.mem_cons.mp hp with rfl | hp'
      · exact ⟨hresid_d.1, le_trans hresid_d.2 (by norm_num)⟩
      · have hne : ud ≠ p.1 :=
          fun hc => hudds (hc ▸ List.mem_map_of_mem Prod.fst hp')
        rw [hFrom p.1, if_neg (fun hcc => hne hcc.2), zero_add]
        exact ihD p hp'
    · intro q hq
      rcases List.mem_cons.mp hq with rfl | hq'
      · exact ⟨hresid_c.1, le_trans hresid_c.2 (by norm_num)⟩
      · have hne : uc ≠ q.1 :=
          fun hc => huccs (hc ▸ List.mem_map_of_mem Prod.fst hq')
        rw [hTo q.1, if_neg (fun hcc => hne hcc.2), zero_add]
        exact ihC q hq'
    · intro ud' d' ds' uc' c' cs' hDeq hCeq
      rw [List.cons.injEq, Prod.mk.injEq] at hDeq hCeq
      obtain ⟨⟨rfl, rfl⟩, rfl⟩ := hDeq
      obtain ⟨⟨rfl, rfl⟩, rfl⟩ := hCeq
      exact ⟨fun _ => hresid_d.2, fun _ => hresid_c.2⟩
  | case4 ud d ds uc c cs a h1 h2 ih =>
    intro hInv
    have h1' : d - min d c < 1/100 := h1
    have h2' : ¬ c - min d c < 1/100 := h2
    have hcma : (1:ℚ)/100 ≤ c - min d c := not_lt.mp h2'
    obtain ⟨hgD, hgC, hsum, hnd⟩ := hInv
    have hd2 : is2dp d := hgD.1 (ud, d) (List.mem_cons_self _ _)
    have hc2 : is2dp c := hgC.1 (uc, c) (List.mem_cons_self _ _)
    have hd1 : (1:ℚ)/100 ≤ d := hgD.2.1 (ud, d) (List.mem_cons_self _ _)
    have hc1 : (1:ℚ)/100 ≤ c := hgC.2.1 (uc, c) (List.mem_cons_self _ _)
    have ha2 : is2dp (min d c) := hd2.min hc2
    have ha1 : (1:ℚ)/100 ≤ min d c := le_min hd1 hc1
    have hrnd : rnd2 (min d c) = min d c := rnd2_eq_self ha2
    have hd0 : d - min d c = 0 := is2dp_eq_zero_of_lt_cent (hd2.sub ha2)
      (by have := min_le_left d c; linarith) h1'
    have hda : d = min d c := by linarith
    have hgC' : goodSide ((uc, c - min d c) :: cs) := by
      refine ⟨?_, ?_, ?_⟩
      · intro p hp
        rcases List.mem_cons.mp hp with rfl | hp'
        · exact hc2.sub ha2
        · exact hgC.1 p (List.mem_cons_of_mem _ hp')
      · intro p hp
        rcases List.mem_cons.mp hp with rfl | hp'
        · exact hcma
        · have := hgC.2.2 p hp'
          linarith
      · intro p hp
        exact hgC.2.2 p hp
    have hsum0 : d + sumAmt ds = c + sumAmt cs := by
      rw [sumAmt_cons, sumAmt_cons] at hsum
      exact hsum
    have hsum' : sumAmt ds = sumAmt ((uc, c - min d c) :: cs) := by
      rw [sumAmt_cons]
      show sumAmt ds = (c - min d c) + sumAmt cs
      linarith
    have hnd' : (ds.map Prod.fst ++ ((uc, c - min d c) :: cs).map Prod.fst).Nodup := by
      refine hnd.sublist ?_
      simp only [List.map_cons]
      exact List.Sublist.append (List.sublist_cons_self _ _) (List.Sublist.refl _)
    have hInv' : settleInv ds ((uc, c - min d c) :: cs) :=
      ⟨goodSide_tail hgD, hgC', hsum', hnd'⟩
    obtain ⟨ihD, ihC, ihH⟩ := ih hInv'
    have hL : settle ((ud, d) :: ds) ((uc, c) :: cs) =
        (if 1/100 < min d c then [Debt.mk ud uc (rnd2 (min d c))] else []) ++
          settle ds ((uc, c - min d c) :: cs) := by
      rw [settle_cons_cons, if_pos h1', if_neg h2']
    rw [List.map_cons, List.map_cons, List.nodup_append] at hnd
    have hudds : ud ∉ ds.map Prod.fst := (List.nodup_cons.mp hnd.1).1
    have huccs : uc ∉ cs.map Prod.fst := (List.nodup_cons.mp hnd.2.1).1
    have hFrom : ∀ u, fromTotal (settle ((ud, d) :: ds) ((uc, c) :: cs)) u =
        (if 1/100 < min d c ∧ ud = u then min d c else 0) +
          fromTotal (settle ds ((uc, c - min d c) :: cs)) u := by
      intro u
      rw [hL, fromTotal_append, fromTotal_push, hrnd]
    have hTo : ∀ u, toTotal (settle ((ud, d) :: ds) ((uc, c) :: cs)) u =
        (if 1/100 < min d c ∧ uc = u then min d c else 0) +
          toTotal (settle ds ((uc, c - min d c) :: cs)) u := by
      intro u
      rw [hL, toTotal_append, toTotal_push, hrnd]
    have hFud : fromTotal (settle ((ud, d) :: ds) ((uc, c) :: cs)) ud =
        if 1/100 < min d c then min d c else 0 := by
      rw [hFrom ud, fromTotal_settle_zero hudds, add_zero]
      by_cases h : 1/100 < min d c
      · rw [if_pos ⟨h, rfl⟩, if_pos h]
      · rw [if_neg (fun hc => h hc.1), if_neg h]
    have hacases := is2dp_cent_cases ha2 ha1
    have hresid_d : 0 ≤ d - fromTotal (settle ((ud, d) :: ds) ((uc, c) :: cs)) ud ∧
        d - fromTotal (settle ((ud, d) :: ds) ((uc, c) :: cs)) ud ≤ 1/100 := by
      rw [hFud]
      rcases hacases with hone | htwo
      · rw [if_neg (by rw [hone]; exact lt_irrefl _)]
        exact ⟨by linarith, by linarith⟩
      · rw [if_pos (by linarith)]
        exact ⟨by linarith, by linarith⟩
    -- the debtor side is non-empty, and its head is an untouched entry
    have hcs0 : 0 ≤ sumAmt cs := sumAmt_nonneg (fun p hp => by
      have := hgC.2.2 p hp
      linarith)
    have hdsne : ds ≠ [] := by
      intro hds
      rw [hds] at hsum'
      rw [sumAmt_cons] at hsum'
      have : sumAmt ([] : List (String × ℚ)) = 0 := rfl
      rw [this] at hsum'
      have hcm : (0:ℚ) = (c - min d c) + sumAmt cs := hsum'
      linarith
    obtain ⟨w, ds', hds⟩ := List.exists_cons_of_ne_nil hdsne
    have hw2 : (2:ℚ)/100 ≤ w.2 := hgD.2.2 w (by rw [hds]; exact List.mem_cons_self _ _)
    have hrefined : (c - min d c) -
        toTotal (settle ds ((uc, c - min d c) :: cs)) uc ≤ 1/100 := by
      have := (ihH w.1 w.2 ds' uc (c - min d c) cs (by rw [hds]) rfl).2 hw2
      exact this
    have hr' := ihC (uc, c - min d c) (List.mem_cons_self _ _)
    have hr'1 : 0 ≤ (c - min d c) -
        toTotal (settle ds ((uc, c - min d c) :: cs)) uc := hr'.1
    have hTuc : toTotal (settle ((ud, d) :: ds) ((uc, c) :: cs)) uc =
        (if 1/100 < min d c then min d c else 0) +
          toTotal (settle ds ((uc, c - min d c) :: cs)) uc := by
      rw [hTo uc]
      by_cases h : 1/100 < min d c
      · rw [if_pos ⟨h, rfl⟩, if_pos h]
      · rw [if_neg (fun hc => h hc.1), if_neg h]
    have hresid_c : 0 ≤ c - toTotal (settle ((ud, d) :: ds) ((uc, c) :: cs)) uc ∧
        c - toTotal (settle ((ud, d) :: ds) ((uc, c) :: cs)) uc ≤ 2/100 := by
      rw [hTuc]
      rcases hacases with hone | htwo
      · rw [if_neg (by rw [hone]; exact lt_irrefl _)]
        constructor
        · linarith
        · rw [hone] at hrefined hr'1 ⊢
          linarith
      · rw [if_pos (by linarith)]
        constructor
        · linarith
        · linarith
    refine ⟨?_, ?_, ?_⟩
    · intro p hp
      rcases List.mem_cons.mp hp with rfl | hp'
      · exact ⟨hresid_d.1, le_trans hresid_d.2 (by norm_num)⟩
      · have hne : ud ≠ p.1 :=
          fun hc => hudds (hc ▸ List.mem_map_of_mem Prod.fst hp')
        rw [hFrom p.1, if_neg (fun hcc => hne hcc.2), zero_add]
        exact ihD p hp'
    · intro q hq
      rcases List.mem_cons.mp hq with rfl | hq'
      · exact hresid_c
      · have hne : uc ≠ q.1 :=
          fun hc => huccs (hc ▸ List.mem_map_of_mem Prod.fst hq')
        rw [hTo q.1, if_neg (fun hcc => hne hcc.2), zero_add]
        exact ihC q (List.mem_cons_of_mem _ hq')
    · intro ud' d' ds'' uc' c' cs'' hDeq hCeq
      rw [List.cons.injEq, Prod.mk.injEq] at hDeq hCeq
      obtain ⟨⟨rfl, rfl⟩, rfl⟩ := hDeq
      obtain ⟨⟨rfl, rfl⟩, rfl⟩ := hCeq
      refine ⟨fun _ => hresid_d.2, fun hd2c => ?_⟩
      -- d = min d c ≥ 2/100, so the transfer was recorded and the
      -- creditor's residual is controlled by the refined bound
      have hmin2 : (2:ℚ)/100 ≤ min d c := by rw [← hda]; exact hd2c
      rw [hTuc, if_pos (by linarith)]
      linarith
  | case5 ud d ds uc c cs a h1 ih =>
    intro hInv
    have h1' : ¬ d - min d c < 1/100 := h1
    have hdma : (1:ℚ)/100 ≤ d - min d c := not_lt.mp h1'
    obtain ⟨hgD, hgC, hsum, hnd⟩ := hInv
    have hd2 : is2dp d := hgD.1 (ud, d) (List.mem_cons_self _ _)
    have hc2 : is2dp c := hgC.1 (uc, c) (List.mem_cons_self _ _)
    have hd1 : (1:ℚ)/100 ≤ d := hgD.2.1 (ud, d) (List.mem_cons_self _ _)
    have hc1 : (1:ℚ)/100 ≤ c := hgC.2.1 (uc, c) (List.mem_cons_self _ _)
    have ha2 : is2dp (min d c) := hd2.min hc2
    have ha1 : (1:ℚ)/100 ≤ min d c := le_min hd1 hc1
    have hrnd : rnd2 (min d c) = min d c := rnd2_eq_self ha2
    have hac : min d c = c := by
      rcases min_choice d c with h | h
      · exfalso
        rw [← h] at hdma
        have : d - min d c = 0 := by rw [h]; ring
        linarith
      · exact h
    have hgD' : goodSide ((ud, d - min d c) :: ds) := by
      refine ⟨?_, ?_, ?_⟩
      · intro p hp
        rcases List.mem_cons.mp hp with rfl | hp'
        · exact hd2.sub ha2
        · exact hgD.1 p (List.mem_cons_of_mem _ hp')
      · intro p hp
        rcases List.mem_cons.mp hp with rfl | hp'
        · exact hdma
        · have := hgD.2.2 p hp'
          linarith
      · intro p hp
        exact hgD.2.2 p hp
    have hsum0 : d + sumAmt ds = c + sumAmt cs := by
      rw [sumAmt_cons, sumAmt_cons] at hsum
      exact hsum
    have hsum' : sumAmt ((ud, d - min d c) :: ds) = sumAmt cs := by
      rw [sumAmt_cons]
      show (d - min d c) + sumAmt ds = sumAmt cs
      rw [hac]
      linarith
    have hnd' : (((ud, d - min d c) :: ds).map Prod.fst ++ cs.map Prod.fst).Nodup := by
      refine hnd.sublist ?_
      simp only [List.map_cons]
      exact List.Sublist.append (List.Sublist.refl _) (List.sublist_cons_self _ _)
    have hInv' : settleInv ((ud, d - min d c) :: ds) cs :=
      ⟨hgD', goodSide_tail hgC, hsum', hnd'⟩
    obtain ⟨ihD, ihC, ihH⟩ := ih hInv'
    have hL : settle ((ud, d) :: ds) ((uc, c) :: cs) =
        (if 1/100 < min d c then [Debt.mk ud uc (rnd2 (min d c))] else []) ++
          settle ((ud, d - min d c) :: ds) cs := by
      rw [settle_cons_cons, if_neg h1']
    rw [List.map_cons, List.map_cons, List.nodup_append] at hnd
    have hudds : ud ∉ ds.map Prod.fst := (List.nodup_cons.mp hnd.1).1
    have huccs : uc ∉ cs.map Prod.fst := (List.nodup_cons.mp hnd.2.1).1
    have hFrom : ∀ u, fromTotal (settle ((ud, d) :: ds) ((uc, c) :: cs)) u =
        (if 1/100 < min d c ∧ ud = u then min d c else 0) +
          fromTotal (settle ((ud, d - min d c) :: ds) cs) u := by
      intro u
      rw [hL, fromTotal_append, fromTotal_push, hrnd]
    have hTo : ∀ u, toTotal (settle ((ud, d) :: ds) ((uc, c) :: cs)) u =
        (if 1/100 < min d c ∧ uc = u then min d c else 0) +
          toTotal (settle ((ud, d - min d c) :: ds) cs) u := by
      intro u
      rw [hL, toTotal_append, toTotal_push, hrnd]
    have hTuc : toTotal (settle ((ud, d) :: ds) ((uc, c) :: cs)) uc =
        if 1/100 < min d c then min d c else 0 := by
      rw [hTo uc, toTotal_settle_zero huccs, add_zero]
      by_cases h : 1/100 < min d c
      · rw [if_pos ⟨h, rfl⟩, if_pos h]
      · rw [if_neg (fun hc => h hc.1), if_neg h]
    have hacases := is2dp_cent_cases ha2 ha1
    have hresid_c : 0 ≤ c - toTotal (settle ((ud, d) :: ds) ((uc, c) :: cs)) uc ∧
        c - toTotal (settle ((ud, d) :: ds) ((uc, c) :: cs)) uc ≤ 1/100 := by
      rw [hTuc]
      rcases hacases with hone | htwo
      · rw [if_neg (by rw [hone]; exact lt_irrefl _)]
        exact ⟨by linarith, by linarith⟩
      · rw [if_pos (by linarith)]
        exact ⟨by linarith, by linarith⟩
    have hds0 : 0 ≤ sumAmt ds := sumAmt_nonneg (fun p hp => by
      have := hgD.2.2 p hp
      linarith)
    have hcsne : cs ≠ [] := by
      intro hcs
      rw [hcs] at hsum'
      rw [sumAmt_cons] at hsum'
      have h0 : sumAmt ([] : List (String × ℚ)) = 0 := rfl
      rw [h0] at hsum'
      have hcm : (d - min d c) + sumAmt ds = 0 := hsum'
      linarith
    obtain ⟨w, cs', hcs⟩ := List.exists_cons_of_ne_nil hcsne
    have hw2 : (2:ℚ)/100 ≤ w.2 := hgC.2.2 w (by rw [hcs]; exact List.mem_cons_self _ _)
    have hrefined : (d - min d c) -
        fromTotal (settle ((ud, d - min d c) :: ds) cs) ud ≤ 1/100 := by
      exact (ihH ud (d - min d c) ds w.1 w.2 cs' rfl (by rw [hcs])).1 hw2
    have hr' := ihD (ud, d - min d c) (List.mem_cons_self _ _)
    have hr'1 : 0 ≤ (d - min d c) -
        fromTotal (settle ((ud, d - min d c) :: ds) cs) ud := hr'.1
    have hFud : fromTotal (settle ((ud, d) :: ds) ((uc, c) :: cs)) ud =
        (if 1/100 < min d c then min d c else 0) +
          fromTotal (settle ((ud, d - min d c) :: ds) cs) ud := by
      rw [hFrom ud]
      by_cases h : 1/100 < min d c
      · rw [if_pos ⟨h, rfl⟩, if_pos h]
      · rw [if_neg (fun hc => h hc.1), if_neg h]
    have hresid_d : 0 ≤ d - fromTotal (settle ((ud, d) :: ds) ((uc, c) :: cs)) ud ∧
        d - fromTotal (settle ((ud, d) :: ds) ((uc, c) :: cs)) ud ≤ 2/100 := by
      rw [hFud]
      rcases hacases with hone | htwo
      · rw [if_neg (by rw [hone]; exact lt_irrefl _)]
        constructor
        · linarith
        · rw [hone] at hrefined hr'1 ⊢
          linarith
      · rw [if_pos (by linarith)]
        constructor
        · linarith
        · linarith
    refine ⟨?_, ?_, ?_⟩
    · intro p hp
      rcases List.mem_cons.mp hp with rfl | hp'
      · exact hresid_d
      · have hne : ud ≠ p.1 :=
          fun hc => hudds (hc ▸ List.mem_map_of_mem Prod.fst hp')
        rw [hFrom p.1, if_neg (fun hcc => hne hcc.2), zero_add]
        exact ihD p (List.mem_cons_of_mem _ hp')
    · intro q hq
      rcases List.mem_cons.mp hq with rfl | hq'
      · exact ⟨hresid_c.1, le_trans hresid_c.2 (by norm_num)⟩
      · have hne : uc ≠ q.1 :=
          fun hc => huccs (hc ▸ List.mem_map_of_mem Prod.fst hq')
        rw [hTo q.1, if_neg (fun hcc => hne hcc.2), zero_add]
        exact ihC q hq'
    · intro ud' d' ds'' uc' c' cs'' hDeq hCeq
      rw [List.cons.injEq, Prod.mk.injEq] at hDeq hCeq
      obtain ⟨⟨rfl, rfl⟩, rfl⟩ := hDeq
      obtain ⟨⟨rfl, rfl⟩, rfl⟩ := hCeq
      refine ⟨fun hc2c => ?_, fun _ => hresid_c.2⟩
      have hmin2 : (2:ℚ)/100 ≤ min d c := by rw [hac]; exact hc2c
      rw [hFud, if_pos (by linarith)]
      linarith



theorem sum_filter_eq {β : Type} (l : List β) (p : β → Bool) (f : β → ℚ) :
    ((l.filter p).map f).sum = (l.map (fun x => if p x then f x else 0)).sum := by
  induction l with
  | nil => rfl
  | cons x l ih =>
    rw [List.filter_cons]
    by_cases h : p x
    · rw [if_pos h, List.map_cons, List.sum_cons, List.map_cons, List.sum_cons,
        if_pos h, ih]
    · rw [if_neg h, List.map_cons, List.sum_cons, if_neg h, ih]
      ring

theorem sum_map_sub2 {β : Type} (l : List β) (f g : β → ℚ) :
    (l.map (fun x => f x - g x)).sum = (l.map f).sum - (l.map g).sum := by
  induction l with
  | nil => simp
  | cons x l ih =>
    simp only [List.map_cons, List.sum_cons, ih]
    ring

theorem goodSide_of_strong {L : List (String × ℚ)}
    (h : ∀ p ∈ L, is2dp p.2 ∧ 2/100 ≤ p.2) : goodSide L := by
  refine ⟨fun p hp => (h p hp).1, fun p hp => ?_, fun p hp => ?_⟩
  · have := (h p hp).2
    linarith
  · exact (h p (L.tail_sublist.mem hp)).2

/-- C2 (amended: executing a debt moves the `from` member's netBalance up
by the amount and the `to` member's down — the claim has the two signs
backwards — the tolerance is 0.02 rather than 0.01 because a remaining
transfer of exactly 0.01 is dropped by the `amount > 0.01` check, and the
balances must be well-formed: pairwise-distinct uids, whole-cent values,
zero total, and every nonzero balance at least 0.02 in absolute value —
balances of exactly ±0.01 fall below the `> 0.01` partition threshold and
are left in place untouched, so they must be excluded too).  Executing
every returned debt then leaves every member within 0.02 of zero. -/
theorem calculateDebts_settles (balances : List BalanceSummary)
    (hnd : (balances.map BalanceSummary.uid).Nodup)
    (h2dp : ∀ b ∈ balances, is2dp b.netBalance)
    (hsum : (balances.map BalanceSummary.netBalance).sum = 0)
    (hgap : ∀ b ∈ balances, b.netBalance = 0 ∨ 2/100 ≤ |b.netBalance|) :
    ∀ b ∈ balances,
      |b.netBalance + fromTotal (calculateDebts balances) b.uid
        - toTotal (calculateDebts balances) b.uid| ≤ 2/100 := by
  classical
  set Dfil := balances.filter (fun b => decide (b.netBalance < -(1/100))) with hDfil
  set Cfil := balances.filter (fun b => decide (1/100 < b.netBalance)) with hCfil
  set D := ((Dfil.map (fun b => (b.uid, |b.netBalance|))).mergeSort
    (fun x y => y.2 ≤ x.2)) with hD
  set C := ((Cfil.map (fun b => (b.uid, b.netBalance))).mergeSort
    (fun x y => y.2 ≤ x.2)) with hC
  have hcd : calculateDebts balances = settle D C := rfl
  have hpermD : D.Perm (Dfil.map (fun b => (b.uid, |b.netBalance|))) :=
    List.mergeSort_perm _ _
  have hpermC : C.Perm (Cfil.map (fun b => (b.uid, b.netBalance))) :=
    List.mergeSort_perm _ _
  -- zero balances for everyone outside the two partitions
  have hmid : ∀ b ∈ balances, ¬ b.netBalance < -(1/100) →
      ¬ 1/100 < b.netBalance → b.netBalance = 0 := by
    intro b hb hnl hng
    rcases hgap b hb with h0 | h0
    · exact h0
    · exfalso
      rcases abs_cases b.netBalance with ⟨he, _⟩ | ⟨he, _⟩
      · rw [he] at h0
        exact hng (by linarith)
      · rw [he] at h0
        exact hnl (by linarith)
  -- membership facts
  have hmemD : ∀ p ∈ D, ∃ b ∈ balances, b.netBalance < -(1/100) ∧
      p = (b.uid, |b.netBalance|) := by
    intro p hp
    have := hpermD.mem_iff.mp hp
    obtain ⟨b, hb, rfl⟩ := List.mem_map.mp this
    obtain ⟨hbm, hbf⟩ := List.mem_filter.mp hb
    simp only [decide_eq_true_eq] at hbf
    exact ⟨b, hbm, hbf, rfl⟩
  have hmemC : ∀ p ∈ C, ∃ b ∈ balances, 1/100 < b.netBalance ∧
      p = (b.uid, b.netBalance) := by
    intro p hp
    have := hpermC.mem_iff.mp hp
    obtain ⟨b, hb, rfl⟩ := List.mem_map.mp this
    obtain ⟨hbm, hbf⟩ := List.mem_filter.mp hb
    simp only [decide_eq_true_eq] at hbf
    exact ⟨b, hbm, hbf, rfl⟩
  have hgD : goodSide D := by
    apply goodSide_of_strong
    intro p hp
    obtain ⟨b, hbm, hblt, rfl⟩ := hmemD p hp
    refine ⟨(h2dp b hbm).abs, ?_⟩
    rcases hgap b hbm with h0 | h0
    · rw [h0] at hblt
      norm_num at hblt
    · exact h0
  have hgC : goodSide C := by
    apply goodSide_of_strong
    intro p hp
    obtain ⟨b, hbm, hbgt, rfl⟩ := hmemC p hp
    refine ⟨h2dp b hbm, ?_⟩
    rcases hgap b hbm with h0 | h0
    · rw [h0] at hbgt
      norm_num at hbgt
    · rw [abs_of_pos (by linarith)] at h0
      exact h0
  have hsumDC : sumAmt D = sumAmt C := by
    have hsD : sumAmt D = ((Dfil.map (fun b => (b.uid, |b.netBalance|))).map
        (fun p => p.2)).sum := by
      unfold sumAmt
      exact (hpermD.map (fun p => p.2)).sum_eq
    have hsC : sumAmt C = ((Cfil.map (fun b => (b.uid, b.netBalance))).map
        (fun p => p.2)).sum := by
      unfold sumAmt
      exact (hpermC.map (fun p => p.2)).sum_eq
    rw [List.map_map] at hsD hsC
    have hD2 : ((Dfil.map fun b => ((fun p => p.2) ∘ fun b =>
        (b.uid, |b.netBalance|)) b)).sum = (Dfil.map (fun b => |b.netBalance|)).sum :=
      rfl
    have hC2 : ((Cfil.map fun b => ((fun p => p.2) ∘ fun b =>
        (b.uid, b.netBalance)) b)).sum = (Cfil.map (fun b => b.netBalance)).sum :=
      rfl
    rw [hsD, hsC]
    show (Dfil.map (fun b => |b.netBalance|)).sum =
      (Cfil.map (fun b => b.netBalance)).sum
    have hfil1 : (Dfil.map (fun b => |b.netBalance|)).sum =
        (balances.map (fun b => if b.netBalance < -(1/100) then |b.netBalance|
          else 0)).sum := by
      rw [hDfil, sum_filter_eq]
      congr 1
      apply List.map_congr_left
      intro b _
      by_cases h : b.netBalance < -(1/100)
      · rw [if_pos (by simpa using h), if_pos h]
      · rw [if_neg (by simpa using h), if_neg h]
    have hfil2 : (Cfil.map (fun b => b.netBalance)).sum =
        (balances.map (fun b => if 1/100 < b.netBalance then b.netBalance
          else 0)).sum := by
      rw [hCfil, sum_filter_eq]
      congr 1
      apply List.map_congr_left
      intro b _
      by_cases h : 1/100 < b.netBalance
      · rw [if_pos (by simpa using h), if_pos h]
      · rw [if_neg (by simpa using h), if_neg h]
    have hsplit : ∀ b ∈ balances, b.netBalance =
        (if 1/100 < b.netBalance then b.netBalance else 0) -
        (if b.netBalance < -(1/100) then |b.netBalance| else 0) := by
      intro b hb
      by_cases h1 : 1/100 < b.netBalance
      · rw [if_pos h1, if_neg (by linarith)]
        ring
      · by_cases h2 : b.netBalance < -(1/100)
        · rw [if_neg h1, if_pos h2, abs_of_neg (by linarith)]
          ring
        · rw [if_neg h1, if_neg h2, hmid b hb h2 h1]
          norm_num
    have : (balances.map BalanceSummary.netBalance).sum =
        (balances.map (fun b => (if 1/100 < b.netBalance then b.netBalance else 0) -
          (if b.netBalance < -(1/100) then |b.netBalance| else 0))).sum := by
      congr 1
      exact List.map_congr_left hsplit
    rw [sum_map_sub2] at this
    rw [hfil1, hfil2]
    rw [hsum] at this
    linarith
  have hinj := List.inj_on_of_nodup_map hnd
  have hnodup : (D.map Prod.fst ++ C.map Prod.fst).Nodup := by
    have hpf : (D.map Prod.fst ++ C.map Prod.fst).Perm
        (Dfil.map BalanceSummary.uid ++ Cfil.map BalanceSummary.uid) := by
      refine List.Perm.append ?_ ?_
      · have := hpermD.map Prod.fst
        rw [List.map_map] at this
        exact this
      · have := hpermC.map Prod.fst
        rw [List.map_map] at this
        exact this
    rw [hpf.nodup_iff]
    rw [List.nodup_append]
    refine ⟨?_, ?_, ?_⟩
    · exact hnd.sublist ((List.filter_sublist _).map _)
    · exact hnd.sublist ((List.filter_sublist _).map _)
    · intro u hu1 hu2
      obtain ⟨b1, hb1, rfl⟩ := List.mem_map.mp hu1
      obtain ⟨b2, hb2, he⟩ := List.mem_map.mp hu2
      obtain ⟨hb1m, hb1f⟩ := List.mem_filter.mp hb1
      obtain ⟨hb2m, hb2f⟩ := List.mem_filter.mp hb2
      simp only [decide_eq_true_eq] at hb1f hb2f
      have : b2 = b1 := hinj hb2m hb1m he
      rw [this] at hb2f
      linarith
  have hbounds := settle_residual_bounds D C ⟨hgD, hgC, hsumDC, hnodup⟩
  intro b hb
  rw [hcd]
  by_cases h1 : b.netBalance < -(1/100)
  · have hpD : (b.uid, |b.netBalance|) ∈ D := by
      rw [hpermD.mem_iff]
      exact List.mem_map_of_mem _ (List.mem_filter.mpr ⟨hb, by simpa using h1⟩)
    have hres := hbounds.1 (b.uid, |b.netBalance|) hpD
    have hto : toTotal (settle D C) b.uid = 0 := by
      apply toTotal_settle_zero
      intro hc
      obtain ⟨p, hp, hpe⟩ := List.mem_map.mp hc
      obtain ⟨b2, hb2m, hb2gt, rfl⟩ := hmemC p hp
      have : b2 = b := hinj hb2m hb hpe
      rw [this] at hb2gt
      linarith
    rw [hto, sub_zero]
    have habs : |b.netBalance| = -b.netBalance := abs_of_neg (by linarith)
    have e1 : 0 ≤ |b.netBalance| - fromTotal (settle D C) b.uid := hres.1
    have e2 : |b.netBalance| - fromTotal (settle D C) b.uid ≤ 2/100 := hres.2
    rw [habs] at e1 e2
    rw [abs_le]
    constructor <;> linarith
  · by_cases h2 : 1/100 < b.netBalance
    · have hpC : (b.uid, b.netBalance) ∈ C := by
        rw [hpermC.mem_iff]
        exact List.mem_map_of_mem _ (List.mem_filter.mpr ⟨hb, by simpa using h2⟩)
      have hres := hbounds.2.1 (b.uid, b.netBalance) hpC
      have hfrom : fromTotal (settle D C) b.uid = 0 := by
        apply fromTotal_settle_zero
        intro hc
        obtain ⟨p, hp, hpe⟩ := List.mem_map.mp hc
        obtain ⟨b2, hb2m, hb2lt, rfl⟩ := hmemD p hp
        have : b2 = b := hinj hb2m hb hpe
        rw [this] at hb2lt
        linarith
      rw [hfrom, add_zero]
      have e1 : 0 ≤ b.netBalance - toTotal (settle D C) b.uid := hres.1
      have e2 : b.netBalance - toTotal (settle D C) b.uid ≤ 2/100 := hres.2
      rw [abs_le]
      constructor <;> linarith
    · have h0 : b.netBalance = 0 := hmid b hb h1 h2
      have hfrom : fromTotal (settle D C) b.uid = 0 := by
        apply fromTotal_settle_zero
        intro hc
        obtain ⟨p, hp, hpe⟩ := List.mem_map.mp hc
        obtain ⟨b2, hb2m, hb2lt, rfl⟩ := hmemD p hp
        have : b2 = b := hinj hb2m hb hpe
        rw [this] at hb2lt
        exact h1 hb2lt
      have hto : toTotal (settle D C) b.uid = 0 := by
        apply toTotal_settle_zero
        intro hc
        obtain ⟨p, hp, hpe⟩ := List.mem_map.mp hc
        obtain ⟨b2, hb2m, hb2gt, rfl⟩ := hmemC p hp
        have : b2 = b := hinj hb2m hb hpe
        rw [this] at hb2gt
        exact h2 hb2gt
      rw [h0, hfrom, hto]
      norm_num



/-- Concrete run of the greedy settlement used by the C2 counterexample:
debtors 0.04, 0.02, 0.02 against creditors 0.05, 0.03 yield only the two
transfers a→d 0.04 and c→e 0.02 (the two 0.01-sized matches are dropped). -/
theorem calculateDebts_example_eval : calculateDebts
    [ BalanceSummary.mk "a" "A" none 0 0 (-(4/100)),
      BalanceSummary.mk "b" "B" none 0 0 (-(2/100)),
      BalanceSummary.mk "c" "C" none 0 0 (-(2/100)),
      BalanceSummary.mk "d" "D" none 0 0 (5/100),
      BalanceSummary.mk "e" "E" none 0 0 (3/100) ] =
    [ Debt.mk "a" "d" (4/100), Debt.mk "c" "e" (2/100) ] := by
  rw [calculateDebts]
  norm_num [List.filter_cons, List.filter_nil]
  rw [show |(1:ℚ)/25| = 1/25 from by norm_num, show |(1:ℚ)/50| = 1/50 from by norm_num]
  rw [List.mergeSort_of_sorted (by norm_num [List.Pairwise]),
      List.mergeSort_of_sorted (by norm_num [List.Pairwise])]
  norm_num [settle, rnd2, jround, min_def]

/-- C2 counterexample: on balances (−0.04, −0.02, −0.02, +0.05, +0.03) —
distinct uids, whole cents, zero sum — the claim fails as stated: under its
literal operation (subtract from `from`, add to `to`) member `a` ends at
−0.08, and even under the corrected signs member `b` ends at −0.02, beyond
the claimed 0.01. -/
theorem calculateDebts_settles_fails :
    ¬ (∀ b ∈ [ BalanceSummary.mk "a" "A" none 0 0 (-(4/100)),
        BalanceSummary.mk "b" "B" none 0 0 (-(2/100)),
        BalanceSummary.mk "c" "C" none 0 0 (-(2/100)),
        BalanceSummary.mk "d" "D" none 0 0 (5/100),
        BalanceSummary.mk "e" "E" none 0 0 (3/100) ],
      |b.netBalance - fromTotal (calculateDebts
          [ BalanceSummary.mk "a" "A" none 0 0 (-(4/100)),
            BalanceSummary.mk "b" "B" none 0 0 (-(2/100)),
            BalanceSummary.mk "c" "C" none 0 0 (-(2/100)),
            BalanceSummary.mk "d" "D" none 0 0 (5/100),
            BalanceSummary.mk "e" "E" none 0 0 (3/100) ]) b.uid
        + toTotal (calculateDebts
          [ BalanceSummary.mk "a" "A" none 0 0 (-(4/100)),
            BalanceSummary.mk "b" "B" none 0 0 (-(2/100)),
            BalanceSummary.mk "c" "C" none 0 0 (-(2/100)),
            BalanceSummary.mk "d" "D" none 0 0 (5/100),
            BalanceSummary.mk "e" "E" none 0 0 (3/100) ]) b.uid| ≤ 1/100)
    ∧ ¬ (∀ b ∈ [ BalanceSummary.mk "a" "A" none 0 0 (-(4/100)),
        BalanceSummary.mk "b" "B" none 0 0 (-(2/100)),
        BalanceSummary.mk "c" "C" none 0 0 (-(2/100)),
        BalanceSummary.mk "d" "D" none 0 0 (5/100),
        BalanceSummary.mk "e" "E" none 0 0 (3/100) ],
      |b.netBalance + fromTotal (calculateDebts
          [ BalanceSummary.mk "a" "A" none 0 0 (-(4/100)),
            BalanceSummary.mk "b" "B" none 0 0 (-(2/100)),
            BalanceSummary.mk "c" "C" none 0 0 (-(2/100)),
            BalanceSummary.mk "d" "D" none 0 0 (5/100),
            BalanceSummary.mk "e" "E" none 0 0 (3/100) ]) b.uid
        - toTotal (calculateDebts
          [ BalanceSummary.mk "a" "A" none 0 0 (-(4/100)),
            BalanceSummary.mk "b" "B" none 0 0 (-(2/100)),
            BalanceSummary.mk "c" "C" none 0 0 (-(2/100)),
            BalanceSummary.mk "d" "D" none 0 0 (5/100),
            BalanceSummary.mk "e" "E" none 0 0 (3/100) ]) b.uid| ≤ 1/100) := by
  constructor
  · intro h
    have ha := h (BalanceSummary.mk "a" "A" none 0 0 (-(4/100))) (by simp)
    rw [calculateDebts_example_eval] at ha
    simp +decide [fromTotal, toTotal, List.filter] at ha
    rw [abs_le] at ha
    have := ha.1
    norm_num at this
  · intro h
    have hb := h (BalanceSummary.mk "b" "B" none 0 0 (-(2/100))) (by simp)
    rw [calculateDebts_example_eval] at hb
    simp +decide [fromTotal, toTotal, List.filter] at hb
    rw [abs_le] at hb
    have := hb.2
    norm_num at this

/-- Witness for `calculateDebts_settles`: balances +5/−5 settle exactly. -/
theorem calculateDebts_settles_witness :
    (([BalanceSummary.mk "a" "A" none 5 0 5,
       BalanceSummary.mk "b" "B" none 0 5 (-5)].map BalanceSummary.uid).Nodup
    ∧ (∀ b ∈ [BalanceSummary.mk "a" "A" none 5 0 5,
        BalanceSummary.mk "b" "B" none 0 5 (-5)], is2dp b.netBalance)
    ∧ ([BalanceSummary.mk "a" "A" none 5 0 5,
        BalanceSummary.mk "b" "B" none 0 5 (-5)].map
        BalanceSummary.netBalance).sum = 0
    ∧ (∀ b ∈ [BalanceSummary.mk "a" "A" none 5 0 5,
        BalanceSummary.mk "b" "B" none 0 5 (-5)],
        b.netBalance = 0 ∨ 2/100 ≤ |b.netBalance|))
    ∧ ∀ b ∈ [BalanceSummary.mk "a" "A" none 5 0 5,
        BalanceSummary.mk "b" "B" none 0 5 (-5)],
      |b.netBalance + fromTotal (calculateDebts
          [BalanceSummary.mk "a" "A" none 5 0 5,
           BalanceSummary.mk "b" "B" none 0 5 (-5)]) b.uid
        - toTotal (calculateDebts
          [BalanceSummary.mk "a" "A" none 5 0 5,
           BalanceSummary.mk "b" "B" none 0 5 (-5)]) b.uid| ≤ 2/100 := by
  have h1 : (([BalanceSummary.mk "a" "A" none 5 0 5,
      BalanceSummary.mk "b" "B" none 0 5 (-5)].map BalanceSummary.uid).Nodup) := by
    simp
  have h2 : ∀ b ∈ [BalanceSummary.mk "a" "A" none 5 0 5,
      BalanceSummary.mk "b" "B" none 0 5 (-5)], is2dp b.netBalance := by
    intro b hb
    rcases List.mem_cons.mp hb with rfl | hb'
    · exact ⟨500, by norm_num⟩
    · rw [List.mem_singleton.mp hb']
      exact ⟨-500, by norm_num⟩
  have h3 : ([BalanceSummary.mk "a" "A" none 5 0 5,
      BalanceSummary.mk "b" "B" none 0 5 (-5)].map BalanceSummary.netBalance).sum
      = 0 := by
    norm_num
  have h4 : ∀ b ∈ [BalanceSummary.mk "a" "A" none 5 0 5,
      BalanceSummary.mk "b" "B" none 0 5 (-5)],
      b.netBalance = 0 ∨ 2/100 ≤ |b.netBalance| := by
    intro b hb
    rcases List.mem_cons.mp hb with rfl | hb'
    · right
      norm_num
    · rw [List.mem_singleton.mp hb']
      right
      norm_num
  exact ⟨⟨h1, h2, h3, h4⟩, calculateDebts_settles _ h1 h2 h3 h4⟩

end SynSplit
